import Mathlib

/-!
Verification development for the `mcp_router` repository.

The definitions below are a shallow embedding of the Python source under
`src/mcp_router/`.  Wall-clock times, durations and response times are
modelled as rationals (`ℚ`); Python dictionaries keyed by strings are
modelled as association lists (first binding wins, as in `dict`); Python
`OrderedDict` is modelled as an association list whose *end* is the
most-recently-used position.  Each embedded operation names the source
function it was translated from.
-/

namespace MCPRouter

/-! ### Association-list helpers (model of `dict` / SQL rows keyed by id) -/

/-- First value bound to `k`, if any (model of `dict.get`). -/
def lookupKey {β : Type} (k : String) : List (String × β) → Option β
  | [] => none
  | (k', v) :: t => if k' = k then some v else lookupKey k t

/-- Replace the binding of `k` (keeping its position) or append a fresh one
(model of `dict[k] = v` on a dict whose keys are unique). -/
def upsertKey {β : Type} (k : String) (v : β) : List (String × β) → List (String × β)
  | [] => [(k, v)]
  | (k', v') :: t => if k' = k then (k, v) :: t else (k', v') :: upsertKey k v t

/-- Remove the binding of `k` (model of `del dict[k]`). -/
def eraseKey {β : Type} (k : String) : List (String × β) → List (String × β)
  | [] => []
  | (k', v') :: t => if k' = k then t else (k', v') :: eraseKey k t

/-- Whether `k` is bound (model of `k in dict`). -/
def hasKey {β : Type} (k : String) (l : List (String × β)) : Bool :=
  (lookupKey k l).isSome

/-! ### Tokenisation and substring containment

`str.split()` in Python splits on whitespace runs and discards empty
pieces; `a in b` on strings is substring containment. -/

/-- Character-level splitter (structural recursion on the character
list; `acc` holds the current word reversed). -/
def splitWsAux : List Char → List Char → List (List Char)
  | [], acc => [acc.reverse]
  | c :: rest, acc =>
      if c = ' ' ∨ c = '\t' ∨ c = '\n' ∨ c = '\r' then
        acc.reverse :: splitWsAux rest []
      else splitWsAux rest (c :: acc)

/-- Model of Python `str.split()` (split on whitespace, empty pieces
dropped). -/
def splitWs (s : String) : List String :=
  ((splitWsAux s.toList []).map (fun l => String.mk l)).filter (· ≠ "")

/-- Model of Python `str.lower()`. -/
def lowerStr (s : String) : String :=
  String.mk (s.toList.map Char.toLower)

/-- `needle` occurs at the head of `hay`. -/
def headMatch : List Char → List Char → Bool
  | [], _ => true
  | _ :: _, [] => false
  | a :: as, b :: bs => a == b && headMatch as bs

/-- `needle` occurs somewhere in `hay` (model of Python `needle in hay`). -/
def subMatch (needle hay : List Char) : Bool :=
  match hay with
  | [] => headMatch needle []
  | _ :: t => headMatch needle hay || subMatch needle t

/-- Model of Python `needle in hay` on strings. -/
def strContains (hay needle : String) : Bool :=
  subMatch needle.toList hay.toList

/-! ### EWMA (shared by Registry and Metadata Store, α = 0.3) -/

/-- The smoothing constant `alpha = 0.3` from both
`server_registry.update_server_health` and
`metadata_store.update_server_health`. -/
def alpha : ℚ := 3 / 10

/-- One EWMA step: `alpha * r + (1 - alpha) * old`. -/
def ewmaStep (r old : ℚ) : ℚ := alpha * r + (1 - alpha) * old

/-- The fold the specification states: `ewma₀ = r₁`,
`ewmaᵢ = 0.3·rᵢ + 0.7·ewmaᵢ₋₁`; `none` on the empty sequence. -/
def specEwma : List ℚ → Option ℚ
  | [] => none
  | r :: rs => some (rs.foldl (fun acc x => ewmaStep x acc) r)

/-! ### Server Registry (`core/registry/server_registry.py`) -/

/-- One value of `ServerRegistry.server_health[server_id]` (a Python dict
with these five entries; `last_successful_connection` is `0` when the
record was created by a non-online update). -/
structure RegHealth where
  status : String
  lastCheck : ℚ
  lastSuccessfulConnection : ℚ
  errorCount : Nat
  averageResponseTime : ℚ
  deriving Repr, DecidableEq

/-- State of `ServerRegistry`: `servers` maps id → config (config text is
opaque here), `server_capabilities` maps id → capability set (kept as a
list), `server_health` maps id → health dict. -/
structure Registry where
  servers : List (String × String)
  serverCapabilities : List (String × List String)
  serverHealth : List (String × RegHealth)
  deriving Repr, DecidableEq

def Registry.empty : Registry := ⟨[], [], []⟩

/-- `ServerRegistry.register_server`.  `capabilities` is the Python
optional argument: both `None` and `[]` are falsy, so the capability set
is overwritten only when a non-empty list is supplied; otherwise an empty
set is installed only if the id had none.  The health snapshot is
unconditionally replaced by a record whose `status` is `"online"`
(source lines 107–113). -/
def registerServer (reg : Registry) (serverId cfg : String)
    (capabilities : Option (List String)) (now : ℚ) : Registry :=
  let caps :=
    match capabilities with
    | some (c :: cs) => upsertKey serverId (c :: cs) reg.serverCapabilities
    | _ =>
        if hasKey serverId reg.serverCapabilities then reg.serverCapabilities
        else upsertKey serverId [] reg.serverCapabilities
  let h0 : RegHealth :=
    { status := "online", lastCheck := now, lastSuccessfulConnection := now,
      errorCount := 0, averageResponseTime := 0 }
  { servers := upsertKey serverId cfg reg.servers
    serverCapabilities := caps
    serverHealth := upsertKey serverId h0 reg.serverHealth }

/-- `ServerRegistry.unregister_server`. -/
def unregisterServer (reg : Registry) (serverId : String) : Registry × Bool :=
  if hasKey serverId reg.servers then
    ({ servers := eraseKey serverId reg.servers
       serverCapabilities := eraseKey serverId reg.serverCapabilities
       serverHealth := eraseKey serverId reg.serverHealth }, true)
  else (reg, false)

/-- `ServerRegistry.update_server_health`.  For a known server: if no
health record exists one is created with
`average_response_time = response_time or 0.0`; otherwise the record is
updated in place, and the EWMA is applied whenever `response_time` is not
`None`, *regardless of the status* (source lines 269–273 sit outside the
`if status == "online"` block). -/
def regUpdateHealth (reg : Registry) (serverId status : String)
    (responseTime : Option ℚ) (now : ℚ) : Registry × Bool :=
  if hasKey serverId reg.servers then
    match lookupKey serverId reg.serverHealth with
    | none =>
        let h0 : RegHealth :=
          { status := status, lastCheck := now
            lastSuccessfulConnection := if status = "online" then now else 0
            errorCount := if status = "online" then 0 else 1
            averageResponseTime := responseTime.getD 0 }
        ({ reg with serverHealth := upsertKey serverId h0 reg.serverHealth }, true)
    | some h =>
        let h1 : RegHealth :=
          { status := status, lastCheck := now
            lastSuccessfulConnection :=
              if status = "online" then now else h.lastSuccessfulConnection
            errorCount := if status = "online" then 0 else h.errorCount + 1
            averageResponseTime :=
              match responseTime with
              | some r => ewmaStep r h.averageResponseTime
              | none => h.averageResponseTime }
        ({ reg with serverHealth := upsertKey serverId h1 reg.serverHealth }, true)
  else (reg, false)

/-! ### Metadata Store (`core/metadata/metadata_store.py`)

The SQLite schema of `_initialize_db` is modelled relationally: each
table is a list of rows.  `PRAGMA foreign_keys = ON` is issued *only* on
the connection opened inside `_initialize_db`; every other method opens
its own `sqlite3.connect(...)` connection, and SQLite leaves foreign-key
enforcement (and hence `ON DELETE CASCADE`) switched off on a connection
unless that pragma is issued on it.  The flag `connFk` below records, per
modelled statement, whether the executing connection has the pragma on. -/

/-- The parsed `schema(JSON)` column of a `tools` row; only the
`required` list matters to the claims. -/
structure ToolSchema where
  required : List String
  deriving Repr, DecidableEq

/-- A `tools` row (`id` autoincrement column omitted; uniqueness is by
`(server_id, name)`). -/
structure ToolRow where
  serverId : String
  name : String
  description : String
  schema : ToolSchema
  deriving Repr, DecidableEq

/-- A `server_usage` row (`id`/`timestamp` columns omitted). -/
structure UsageRow where
  serverId : String
  toolName : String
  executionTime : ℚ
  success : Bool
  deriving Repr, DecidableEq

/-- A `server_health` row keyed by `server_id`. -/
structure DbHealthRow where
  status : String
  lastCheck : ℚ
  lastSuccess : Option ℚ
  errorCount : Nat
  averageResponseTime : ℚ
  deriving Repr, DecidableEq

/-- A `servers` row (timestamp columns omitted; `args`/`env` kept as the
JSON text the source stores). -/
structure ServerRow where
  id : String
  name : String
  description : String
  serverType : String
  command : String
  argsJson : String
  envJson : String
  deriving Repr, DecidableEq

/-- The relational state of the Metadata Store. -/
structure DB where
  servers : List ServerRow
  capabilities : List (Nat × String)
  serverCapabilities : List (String × Nat)
  tools : List ToolRow
  serverHealth : List (String × DbHealthRow)
  serverUsage : List UsageRow
  serverTags : List (String × String)
  nextCapId : Nat
  deriving Repr, DecidableEq

def DB.empty : DB := ⟨[], [], [], [], [], [], [], 1⟩

/-- `SELECT 1 FROM servers WHERE id = ?`. -/
def DB.hasServer (db : DB) (serverId : String) : Bool :=
  db.servers.any (fun r => r.id = serverId)

/-- The argument of `store_server_metadata`: the keys the source reads
out of the metadata dict (`metadata.get(...)`, presence checks for
`capabilities`/`tools`/`tags`). -/
structure ServerMeta where
  name : Option String
  description : Option String
  serverType : Option String
  command : Option String
  argsJson : String
  envJson : String
  capabilities : Option (List String)
  tools : Option (List (String × String × ToolSchema))
  tags : Option (List String)
  deriving Repr, DecidableEq

/-- `INSERT OR IGNORE INTO capabilities (name, ...)` followed by
`SELECT id FROM capabilities WHERE name = ?`. -/
def insertCapability (db : DB) (capName : String) : DB × Nat :=
  match db.capabilities.find? (fun c => c.2 = capName) with
  | some c => (db, c.1)
  | none =>
      ({ db with capabilities := db.capabilities ++ [(db.nextCapId, capName)],
                 nextCapId := db.nextCapId + 1 }, db.nextCapId)

/-- `INSERT OR IGNORE INTO server_capabilities (server_id, capability_id)`. -/
def linkCapability (db : DB) (serverId : String) (capId : Nat) : DB :=
  if db.serverCapabilities.any (fun l => l.1 = serverId ∧ l.2 = capId) then db
  else { db with serverCapabilities := db.serverCapabilities ++ [(serverId, capId)] }

/-- `INSERT INTO tools ... ON CONFLICT(server_id, name) DO UPDATE`. -/
def upsertTool (db : DB) (serverId toolName toolDescription : String)
    (schema : ToolSchema) : DB :=
  if db.tools.any (fun t => t.serverId = serverId ∧ t.name = toolName) then
    { db with tools := db.tools.map (fun t =>
        if t.serverId = serverId ∧ t.name = toolName then
          { t with description := toolDescription, schema := schema }
        else t) }
  else
    { db with tools := db.tools ++
        [{ serverId := serverId, name := toolName,
           description := toolDescription, schema := schema }] }

/-- Plain `INSERT INTO server_tags (server_id, tag)` for each new tag:
a duplicate tag in the list violates the `(server_id, tag)` primary key
and raises, which rolls the surrounding transaction back (`none`). -/
def insertTagsStrict (serverId : String) : DB → List String → Option DB
  | db, [] => some db
  | db, tag :: rest =>
      if db.serverTags.any (fun t => t.1 = serverId ∧ t.2 = tag) then none
      else insertTagsStrict serverId
        { db with serverTags := db.serverTags ++ [(serverId, tag)] } rest

/-- The `INSERT INTO servers ... ON CONFLICT(id) DO UPDATE` step of
`store_server_metadata`. -/
def storeUpsertServerRow (db : DB) (serverId : String) (meta : ServerMeta) : DB :=
  let row : ServerRow :=
    { id := serverId, name := meta.name.getD serverId,
      description := meta.description.getD "",
      serverType := meta.serverType.getD "unknown",
      command := meta.command.getD "", argsJson := meta.argsJson,
      envJson := meta.envJson }
  if db.hasServer serverId then
    { db with servers := db.servers.map (fun r => if r.id = serverId then row else r) }
  else { db with servers := db.servers ++ [row] }

/-- The capability loop of `store_server_metadata`. -/
def storeCaps (db : DB) (serverId : String) (meta : ServerMeta) : DB :=
  match meta.capabilities with
  | none => db
  | some caps =>
      caps.foldl (fun acc c =>
        let (acc1, capId) := insertCapability acc c
        linkCapability acc1 serverId capId) db

/-- The tool loop of `store_server_metadata`. -/
def storeTools (db : DB) (serverId : String) (meta : ServerMeta) : DB :=
  match meta.tools with
  | none => db
  | some ts => ts.foldl (fun acc t => upsertTool acc serverId t.1 t.2.1 t.2.2) db

/-- The tag step of `store_server_metadata`: delete the id's existing
tags, then insert the new ones (`none` = a duplicate raised). -/
def storeTags (db : DB) (serverId : String) (meta : ServerMeta) : Option DB :=
  match meta.tags with
  | none => some db
  | some tags =>
      insertTagsStrict serverId
        { db with serverTags := db.serverTags.filter (fun t => t.1 ≠ serverId) }
        tags

/-- The `INSERT OR IGNORE INTO server_health (..., 'unknown', ...)` step
of `store_server_metadata`. -/
def storeHealthInit (db : DB) (serverId : String) (now : ℚ) : DB :=
  if (lookupKey serverId db.serverHealth).isSome then db
  else { db with serverHealth := db.serverHealth ++
          [(serverId, { status := "unknown", lastCheck := now, lastSuccess := none,
                        errorCount := 0, averageResponseTime := 0 })] }

/-- `MetadataStore.store_server_metadata`.  All statements run on one
connection whose context manager commits on success and rolls the whole
transaction back if any statement raises (the only raising statement in
this model is a duplicate tag insert). -/
def storeServerMetadata (db : DB) (serverId : String) (meta : ServerMeta)
    (now : ℚ) : DB × Bool :=
  let db3 := storeTools (storeCaps (storeUpsertServerRow db serverId meta) serverId meta) serverId meta
  match storeTags db3 serverId meta with
  | none => (db, false)
  | some db4 => (storeHealthInit db4 serverId now, true)

/-- `MetadataStore.update_server_health`.  Unlike the Registry, the EWMA
is applied only in the `status == "online"` branch with a non-null
response time; non-online updates leave `average_response_time`
untouched. -/
def metaUpdateHealth (db : DB) (serverId status : String)
    (responseTime : Option ℚ) (now : ℚ) : DB × Bool :=
  if db.hasServer serverId then
    match lookupKey serverId db.serverHealth with
    | some h =>
        let h1 : DbHealthRow :=
          if status = "online" then
            match responseTime with
            | some r =>
                { status := status, lastCheck := now, lastSuccess := some now,
                  errorCount := 0,
                  averageResponseTime := ewmaStep r h.averageResponseTime }
            | none =>
                { status := status, lastCheck := now, lastSuccess := some now,
                  errorCount := 0, averageResponseTime := h.averageResponseTime }
          else
            { h with status := status, lastCheck := now,
                     errorCount := h.errorCount + 1 }
        ({ db with serverHealth := upsertKey serverId h1 db.serverHealth }, true)
    | none =>
        let h0 : DbHealthRow :=
          { status := status, lastCheck := now,
            lastSuccess := if status = "online" then some now else none,
            errorCount := if status = "online" then 0 else 1,
            averageResponseTime := responseTime.getD 0 }
        ({ db with serverHealth := db.serverHealth ++ [(serverId, h0)] }, true)
  else (db, false)

/-- `MetadataStore.record_server_usage`: an unconditional
`INSERT INTO server_usage` (its connection has no foreign-key pragma
either, so it succeeds even for ids with no `servers` row). -/
def recordServerUsage (db : DB) (serverId toolName : String)
    (executionTime : ℚ) (success : Bool) : DB × Bool :=
  ({ db with serverUsage := db.serverUsage ++
      [{ serverId := serverId, toolName := toolName,
         executionTime := executionTime, success := success }] }, true)

/-- Rows of the child tables that reference `serverId`; removed by
`ON DELETE CASCADE` only on a connection with foreign keys on. -/
def cascadeChildRows (db : DB) (serverId : String) : DB :=
  { db with
    serverCapabilities := db.serverCapabilities.filter (fun l => l.1 ≠ serverId)
    tools := db.tools.filter (fun t => t.serverId ≠ serverId)
    serverHealth := db.serverHealth.filter (fun h => h.1 ≠ serverId)
    serverUsage := db.serverUsage.filter (fun u => u.serverId ≠ serverId)
    serverTags := db.serverTags.filter (fun t => t.1 ≠ serverId) }

/-- `DELETE FROM servers WHERE id = ?`, executed on a connection whose
foreign-key enforcement is `connFk`: the declared `ON DELETE CASCADE`
actions fire only when the executing connection has the pragma on. -/
def sqlDeleteServerRow (connFk : Bool) (db : DB) (serverId : String) : DB :=
  let db1 : DB := { db with servers := db.servers.filter (fun r => r.id ≠ serverId) }
  if connFk then cascadeChildRows db1 serverId else db1

/-- Python's `sqlite3.connect` leaves `PRAGMA foreign_keys` at SQLite's
default (off); `delete_server` opens a fresh connection and never issues
the pragma. -/
def deleteServerConnFk : Bool := false

/-- `MetadataStore.delete_server`. -/
def deleteServer (db : DB) (serverId : String) : DB × Bool :=
  if db.hasServer serverId then
    (sqlDeleteServerRow deleteServerConnFk db serverId, true)
  else (db, false)

/-! ### Python exceptions surfaced by the embedded operations -/

/-- The Python exceptions that the embedded code can raise.  `nameError`
is an unbound module-level name; `keyError` is raised by
`OrderedDict.popitem` on an empty dict; `validationError` is the
schema-validation error the specification describes (no embedded
operation ever constructs one). -/
inductive PyErr where
  | nameError (name : String)
  | valueError (msg : String)
  | keyError (msg : String)
  | validationError (msg : String)
  deriving Repr, DecidableEq

instance {ε α : Type} [DecidableEq ε] [DecidableEq α] :
    DecidableEq (Except ε α) := fun a b =>
  match a, b with
  | .ok x, .ok y =>
      if h : x = y then .isTrue (by rw [h]) else .isFalse (by simp [h])
  | .error x, .error y =>
      if h : x = y then .isTrue (by rw [h]) else .isFalse (by simp [h])
  | .ok _, .error _ => .isFalse (by simp)
  | .error _, .ok _ => .isFalse (by simp)

/-! ### Cache entries (`core/cache/cache_interface.py`) -/

/-- Remove every binding of `k`.  Dict keys are unique in every reachable
state, so this coincides with deleting the one binding; stated with
`filter` so that lookup lemmas need no uniqueness side conditions. -/
def dropKey {β : Type} (k : String) (l : List (String × β)) : List (String × β) :=
  l.filter (fun e => e.1 ≠ k)

/-- A `CacheEntry` from `cache_interface.py`: value plus creation,
expiry and access metadata. -/
structure CEntry (V : Type) where
  value : V
  createdAt : ℚ
  expiresAt : Option ℚ
  lastAccessedAt : ℚ
  accessCount : Nat
  deriving Repr, DecidableEq

/-- `CacheEntry.is_expired`: `time.time() > self.expires_at` — strictly
greater, so an entry read exactly at its expiry time is *not* expired. -/
def CEntry.isExpired {V : Type} (e : CEntry V) (now : ℚ) : Bool :=
  match e.expiresAt with
  | none => false
  | some t => decide (t < now)

/-! ### Memory tier (`core/cache/strategies/memory_cache.py`)

The `OrderedDict` is an association list whose *last* element is the
most-recently-used entry; `popitem(last=False)` removes the head. -/

structure MemoryCache (V : Type) where
  cache : List (String × CEntry V)
  maxSize : Nat
  hits : Nat
  misses : Nat
  evictions : Nat
  expirations : Nat
  deriving Repr, DecidableEq

def MemoryCache.init (V : Type) (maxSize : Nat) : MemoryCache V :=
  ⟨[], maxSize, 0, 0, 0, 0⟩

/-- `MemoryCache.get`: miss on absence; lazy expiry (delete + count);
on a hit, `move_to_end` and `entry.access()`. -/
def memGet {V : Type} (m : MemoryCache V) (k : String) (now : ℚ) :
    Option V × MemoryCache V :=
  match lookupKey k m.cache with
  | none => (none, { m with misses := m.misses + 1 })
  | some e =>
      if e.isExpired now then
        (none, { m with cache := dropKey k m.cache, misses := m.misses + 1,
                        expirations := m.expirations + 1 })
      else
        let e1 : CEntry V :=
          { e with lastAccessedAt := now, accessCount := e.accessCount + 1 }
        (some e.value,
         { m with cache := dropKey k m.cache ++ [(k, e1)], hits := m.hits + 1 })

/-- `MemoryCache.set`.  When the cache is full and the key is new,
`popitem(last=False)` evicts the head; on an *empty* full cache (only
possible with `max_size = 0`) `popitem` raises `KeyError`, modelled as
`none`.  The new entry lands at the most-recently-used end. -/
def memSet {V : Type} (m : MemoryCache V) (k : String) (v : V)
    (ttl : Option ℚ) (now : ℚ) : Option (MemoryCache V) :=
  let afterEvict : Option (MemoryCache V) :=
    if m.maxSize ≤ m.cache.length ∧ ¬ hasKey k m.cache then
      match m.cache with
      | [] => none
      | _ :: rest => some { m with cache := rest, evictions := m.evictions + 1 }
    else some m
  afterEvict.map (fun m1 =>
    let e : CEntry V :=
      { value := v, createdAt := now, expiresAt := ttl.map (now + ·),
        lastAccessedAt := now, accessCount := 0 }
    { m1 with cache := dropKey k m1.cache ++ [(k, e)] })

/-- `MemoryCache.delete`. -/
def memDelete {V : Type} (m : MemoryCache V) (k : String) :
    Bool × MemoryCache V :=
  if hasKey k m.cache then (true, { m with cache := dropKey k m.cache })
  else (false, m)

/-- `MemoryCache.clear`. -/
def memClear {V : Type} (m : MemoryCache V) : MemoryCache V :=
  { m with cache := [] }

/-! ### Disk tier (`core/cache/strategies/disk_cache.py`)

One metadata/data file pair per key; the association list stands for the
cache directory (its order only breaks ties between equal
`last_accessed_at` values, which no theorem relies on). -/

structure DiskEntry (V : Type) where
  value : V
  createdAt : ℚ
  lastAccessedAt : ℚ
  accessCount : Nat
  expiresAt : Option ℚ
  deriving Repr, DecidableEq

def DiskEntry.isExpired {V : Type} (e : DiskEntry V) (now : ℚ) : Bool :=
  match e.expiresAt with
  | none => false
  | some t => decide (t < now)

structure DiskCache (V : Type) where
  entries : List (String × DiskEntry V)
  maxSize : Nat
  hits : Nat
  misses : Nat
  evictions : Nat
  expirations : Nat
  deriving Repr, DecidableEq

def DiskCache.init (V : Type) (maxSize : Nat) : DiskCache V :=
  ⟨[], maxSize, 0, 0, 0, 0⟩

/-- `DiskCache.get`: miss on absence, lazy expiry, and on a hit the
metadata file is rewritten with updated access fields. -/
def diskGet {V : Type} (d : DiskCache V) (k : String) (now : ℚ) :
    Option V × DiskCache V :=
  match lookupKey k d.entries with
  | none => (none, { d with misses := d.misses + 1 })
  | some e =>
      if e.isExpired now then
        (none, { d with entries := dropKey k d.entries, misses := d.misses + 1,
                        expirations := d.expirations + 1 })
      else
        let e1 : DiskEntry V :=
          { e with lastAccessedAt := now, accessCount := e.accessCount + 1 }
        (some e.value,
         { d with entries := dropKey k d.entries ++ [(k, e1)], hits := d.hits + 1 })

/-- The key `DiskCache._evict_lru` removes: the first entry attaining the
minimal `last_accessed_at` (Python sorts the metadata listing by that
field and deletes the head). -/
def diskLruKey {V : Type} (l : List (String × DiskEntry V)) : Option String :=
  match l with
  | [] => none
  | (k, e) :: t =>
      match diskLruKey t with
      | none => some k
      | some k' =>
          match lookupKey k' t with
          | none => some k
          | some e' => if e'.lastAccessedAt < e.lastAccessedAt then some k' else some k

/-- `DiskCache._evict_lru`; on an empty cache it merely reports failure,
which `DiskCache.set` ignores. -/
def diskEvictLru {V : Type} (d : DiskCache V) : DiskCache V :=
  match diskLruKey d.entries with
  | none => d
  | some k => { d with entries := dropKey k d.entries, evictions := d.evictions + 1 }

/-- `DiskCache.set`: evict (best-effort) when full and the key is new,
then write the metadata and data files. -/
def diskSet {V : Type} (d : DiskCache V) (k : String) (v : V)
    (ttl : Option ℚ) (now : ℚ) : DiskCache V :=
  let d1 : DiskCache V :=
    if d.maxSize ≤ d.entries.length ∧ ¬ hasKey k d.entries then diskEvictLru d
    else d
  let e : DiskEntry V :=
    { value := v, createdAt := now, lastAccessedAt := now, accessCount := 0,
      expiresAt := ttl.map (now + ·) }
  { d1 with entries := dropKey k d1.entries ++ [(k, e)] }

/-- `DiskCache.delete` (removing absent files still reports success). -/
def diskDelete {V : Type} (d : DiskCache V) (k : String) : Bool × DiskCache V :=
  (true, { d with entries := dropKey k d.entries })

/-- `DiskCache.clear`. -/
def diskClear {V : Type} (d : DiskCache V) : DiskCache V :=
  { d with entries := [] }

/-! ### Cache Manager (`core/cache/cache_manager.py`) -/

/-- `set.add` on a Python set modelled as an ordered list. -/
def addToSet (x : String) (l : List String) : List String :=
  if x ∈ l then l else l ++ [x]

/-- `CacheManager` state: memory tier, optional disk tier, and the two
tag maps `invalidation_tags` (key → tags) and `tag_to_keys`. -/
structure CMState (V : Type) where
  memory : MemoryCache V
  disk : Option (DiskCache V)
  invalidationTags : List (String × List String)
  tagToKeys : List (String × List String)
  deriving Repr, DecidableEq

def CMState.init (V : Type) (memoryCacheSize diskCacheSize : Nat)
    (useDiskCache : Bool) : CMState V :=
  { memory := MemoryCache.init V memoryCacheSize
    disk := if useDiskCache then some (DiskCache.init V diskCacheSize) else none
    invalidationTags := []
    tagToKeys := [] }

/-- `CacheManager._add_tags`. -/
def cmAddTags {V : Type} (st : CMState V) (k : String) (tags : List String) :
    CMState V :=
  let cur := (lookupKey k st.invalidationTags).getD []
  let st1 : CMState V :=
    { st with invalidationTags :=
        upsertKey k (tags.foldl (fun a t => addToSet t a) cur) st.invalidationTags }
  tags.foldl (fun s t =>
    { s with tagToKeys :=
        upsertKey t (addToSet k ((lookupKey t s.tagToKeys).getD [])) s.tagToKeys }) st1

/-- `CacheManager._remove_key`. -/
def cmRemoveKeyTags {V : Type} (st : CMState V) (k : String) : CMState V :=
  match lookupKey k st.invalidationTags with
  | none => st
  | some tags =>
      let st1 := tags.foldl (fun s t =>
        match lookupKey t s.tagToKeys with
        | none => s
        | some ks =>
            if k ∈ ks then
              let ks' := ks.filter (· ≠ k)
              if ks' = [] then { s with tagToKeys := dropKey t s.tagToKeys }
              else { s with tagToKeys := upsertKey t ks' s.tagToKeys }
            else s) st
      { st1 with invalidationTags := dropKey k st1.invalidationTags }

/-- `CacheManager.get`: memory first; on miss, disk; on a disk hit the
value is promoted into memory via `memory_cache.set(key, value)` —
*without a TTL*, so the promoted copy never expires.  The only raising
path is `popitem` during promotion into a 0-capacity memory tier. -/
def cmGet {V : Type} (st : CMState V) (k : String) (now : ℚ) :
    Except PyErr (Option V) × CMState V :=
  let (mv, mem1) := memGet st.memory k now
  match mv with
  | some v => (.ok (some v), { st with memory := mem1 })
  | none =>
      match st.disk with
      | none => (.ok none, { st with memory := mem1 })
      | some d =>
          let (dv, d1) := diskGet d k now
          match dv with
          | none => (.ok none, { st with memory := mem1, disk := some d1 })
          | some v =>
              match memSet mem1 k v none now with
              | none =>
                  (.error (.keyError "dictionary is empty"),
                   { st with memory := mem1, disk := some d1 })
              | some mem2 =>
                  (.ok (some v), { st with memory := mem2, disk := some d1 })

/-- `CacheManager.set`: write memory, then disk, then record tags
(`tags` of `None`/`[]` are both falsy). -/
def cmSet {V : Type} (st : CMState V) (k : String) (v : V) (ttl : Option ℚ)
    (tags : List String) (now : ℚ) : Except PyErr Bool × CMState V :=
  match memSet st.memory k v ttl now with
  | none => (.error (.keyError "dictionary is empty"), st)
  | some mem1 =>
      let disk1 : Option (DiskCache V) := st.disk.map (fun d => diskSet d k v ttl now)
      let st1 : CMState V := { st with memory := mem1, disk := disk1 }
      let st2 : CMState V := if tags = [] then st1 else cmAddTags st1 k tags
      (.ok true, st2)

/-- `CacheManager.delete`. -/
def cmDelete {V : Type} (st : CMState V) (k : String) : Bool × CMState V :=
  let (mres, mem1) := memDelete st.memory k
  let (dres, disk1) :=
    match st.disk with
    | none => (true, none)
    | some d =>
        let (r, d1) := diskDelete d k
        (r, some d1)
  let st1 : CMState V := { st with memory := mem1, disk := disk1 }
  (mres && dres, cmRemoveKeyTags st1 k)

/-- `CacheManager.clear`. -/
def cmClear {V : Type} (st : CMState V) : CMState V :=
  { memory := memClear st.memory, disk := st.disk.map diskClear,
    invalidationTags := [], tagToKeys := [] }

/-- `CacheManager.invalidate_tag`: delete every key recorded under the
tag, then drop the tag. -/
def cmInvalidateTag {V : Type} (st : CMState V) (tag : String) :
    Nat × CMState V :=
  match lookupKey tag st.tagToKeys with
  | none => (0, st)
  | some ks =>
      let (count, st1) := ks.foldl (fun (acc : Nat × CMState V) k =>
        let (r, s1) := cmDelete acc.2 k
        (if r then acc.1 + 1 else acc.1, s1)) (0, st)
      (count, { st1 with tagToKeys := dropKey tag st1.tagToKeys })

/-- One cache operation of the public `CacheManager` interface, tagged
with the wall time at which it runs. -/
inductive CacheOp (V : Type) where
  | get (k : String)
  | set (k : String) (v : V) (ttl : Option ℚ) (tags : List String)
  | del (k : String)
  | clear
  | invalidateTag (tag : String)
  deriving Repr

/-- Apply one timed operation, keeping only the state (exception paths
leave the state the operation produced before raising). -/
def cmStep {V : Type} (st : CMState V) (op : ℚ × CacheOp V) : CMState V :=
  match op.2 with
  | .get k => (cmGet st k op.1).2
  | .set k v ttl tags => (cmSet st k v ttl tags op.1).2
  | .del k => (cmDelete st k).2
  | .clear => cmClear st
  | .invalidateTag t => (cmInvalidateTag st t).2

/-- Run a timed operation sequence. -/
def cmRun {V : Type} (st : CMState V) (ops : List (ℚ × CacheOp V)) : CMState V :=
  ops.foldl cmStep st

/-! ### Keyword analysis (`core/router/intelligent_router.py`) -/

/-- `[word.lower() for word in user_query.split() if len(word) > 3]`. -/
def tokenizeQuery (q : String) : List String :=
  ((splitWs q).filter (fun w => 3 < w.length)).map lowerStr

/-- The union of all capability sets in
`server_registry.server_capabilities` (a Python set; order immaterial,
theorems speak of membership). -/
def allCapabilities (serverCaps : List (String × List String)) : List String :=
  ((serverCaps.map Prod.snd).flatten).eraseDups

/-- Result dict of `IntelligentRouter._keyword_analysis`. -/
structure Analysis where
  requiredCapabilities : List String
  confidence : ℚ
  analysisMethod : String
  deriving Repr, DecidableEq

/-- `IntelligentRouter._keyword_analysis`: tokenize, match each known
capability against the tokens by case-insensitive substring containment,
and return confidence 0.5 — the source returns the literal `0.5`
unconditionally, matched or not. -/
def keywordAnalysis (userQuery : String)
    (serverCaps : List (String × List String)) : Analysis :=
  let keywords := tokenizeQuery userQuery
  let matched := (allCapabilities serverCaps).filter
    (fun c => keywords.any (fun kw => strContains (lowerStr c) kw))
  { requiredCapabilities := matched, confidence := 1 / 2,
    analysisMethod := "keyword" }

/-! ### Adapter Manager (`adapters/adapter_manager.py`) -/

/-- The names bound at module level in `adapter_manager.py`: its
`import` statements (`os`, `logging`, `importlib`, `importlib.util`,
`inspect`, `asyncio`, the `typing` and `pathlib` names, `BaseAdapter`)
and the module-level assignments.  `time` is **not** imported. -/
def adapterManagerGlobals : List String :=
  ["os", "logging", "importlib", "inspect", "asyncio",
   "Dict", "List", "Any", "Optional", "Tuple", "Set", "Type", "Path",
   "BaseAdapter", "logger", "AdapterManager"]

/-- Evaluating a module-level name inside `adapter_manager.py`:
`NameError` when unbound. -/
def lookupModuleGlobal (n : String) : Except PyErr Unit :=
  if n ∈ adapterManagerGlobals then .ok () else .error (.nameError n)

/-- `AdapterManager` state: loaded adapter names, connected server ids,
and the `server_id → adapter name` map. -/
structure AMState where
  adapters : List String
  connections : List String
  serverAdapters : List (String × String)
  deriving Repr, DecidableEq

/-- Outcome of `AdapterManager.execute_tool`: the raised-or-returned
result, and whether the owning adapter's `execute_tool` was reached. -/
structure ExecOutcome (V : Type) where
  result : Except PyErr V
  adapterInvoked : Bool
  deriving Repr, DecidableEq

/-- `AdapterManager.execute_tool`.  `adapterResult` is what the owning
adapter would produce if invoked.  After the connection and adapter
checks the source executes `start_time = time.time()` (line 297), which
evaluates the module-level name `time` — this happens *before* the
`try:` block that calls the adapter. -/
def amExecuteTool {V : Type} (st : AMState) (serverId _toolName : String)
    (adapterResult : Except PyErr V) : ExecOutcome V :=
  if serverId ∈ st.connections then
    match lookupKey serverId st.serverAdapters with
    | none =>
        { result := .error (.valueError ("No adapter found for server " ++ serverId)),
          adapterInvoked := false }
    | some adapterName =>
        if adapterName = "" ∨ ¬ adapterName ∈ st.adapters then
          { result := .error (.valueError ("No adapter found for server " ++ serverId)),
            adapterInvoked := false }
        else
          match lookupModuleGlobal "time" with
          | .error e => { result := .error e, adapterInvoked := false }
          | .ok _ => { result := adapterResult, adapterInvoked := true }
  else
    { result := .error (.valueError ("Not connected to server " ++ serverId)),
      adapterInvoked := false }

/-! ### Router Facade (`core/router/mcp_router_enhanced.py`) -/

/-- Insertion into a key-sorted argument list. -/
def insertByKey (p : String × String) : List (String × String) → List (String × String)
  | [] => [p]
  | q :: t => if p.1 ≤ q.1 then p :: q :: t else q :: insertByKey p t

/-- `json.dumps(tool_args, sort_keys=True)` for a flat string-valued
object (only used to build the cache key, so only injectivity-in-shape
matters). -/
def dumpsSortedKeys (args : List (String × String)) : String :=
  let sorted := args.foldl (fun acc p => insertByKey p acc) []
  "\x7b" ++ String.intercalate ", "
    (sorted.map (fun p => "\x22" ++ p.1 ++ "\x22: \x22" ++ p.2 ++ "\x22")) ++ "\x7d"

/-- The cache key `execute_tool` builds:
`f"execute_tool:\x7bserver_id\x7d:\x7btool_name\x7d:\x7bjson.dumps(tool_args, sort_keys=True)\x7d"`. -/
def execCacheKey (serverId toolName : String) (args : List (String × String)) : String :=
  "execute_tool:" ++ serverId ++ ":" ++ toolName ++ ":" ++ dumpsSortedKeys args

/-- The composed state the facade operates on. -/
structure RouterState (V : Type) where
  cm : CMState V
  am : AMState
  db : DB

/-- Result of one `MCPRouterEnhanced.execute_tool` call. -/
structure FacadeExec (V : Type) where
  result : Except PyErr V
  state : RouterState V
  adapterInvoked : Bool

/-- `MCPRouterEnhanced.execute_tool`: cache lookup under
`"execute_tool:{server_id}:{tool_name}:{json.dumps(args, sort_keys=True)}"`;
on miss, delegate to the Adapter Manager; on success cache with TTL 300;
on error log and `raise` the original error.  The method touches neither
`metadata_store` nor any usage-recording call. -/
def facadeExecuteTool {V : Type} (st : RouterState V)
    (serverId toolName : String) (args : List (String × String))
    (adapterResult : Except PyErr V) (now : ℚ) : FacadeExec V :=
  let cacheKey := execCacheKey serverId toolName args
  match cmGet st.cm cacheKey now with
  | (.error e, cm1) =>
      { result := .error e, state := { st with cm := cm1 }, adapterInvoked := false }
  | (.ok (some v), cm1) =>
      { result := .ok v, state := { st with cm := cm1 }, adapterInvoked := false }
  | (.ok none, cm1) =>
      let out := amExecuteTool st.am serverId toolName adapterResult
      match out.result with
      | .error e =>
          { result := .error e, state := { st with cm := cm1 },
            adapterInvoked := out.adapterInvoked }
      | .ok r =>
          match cmSet cm1 cacheKey r (some 300) [] now with
          | (.error e, cm2) =>
              { result := .error e, state := { st with cm := cm2 },
                adapterInvoked := out.adapterInvoked }
          | (.ok _, cm2) =>
              { result := .ok r, state := { st with cm := cm2 },
                adapterInvoked := out.adapterInvoked }

/-! ### Harness definitions used by the theorem statements -/

/-- Functional update of the Registry's health map (used to state
intermediate equalities). -/
def regWithHealth (reg : Registry) (h : List (String × RegHealth)) : Registry :=
  { reg with serverHealth := h }

/-- Functional update of the Metadata Store's health table. -/
def dbWithHealth (db : DB) (h : List (String × DbHealthRow)) : DB :=
  { db with serverHealth := h }

/-- The Registry health record an `Online` update at time 0 produces. -/
def onlineRegRow (avg : ℚ) : RegHealth :=
  { status := "online", lastCheck := 0, lastSuccessfulConnection := 0,
    errorCount := 0, averageResponseTime := avg }

/-- The Metadata Store health row an `Online` update at time 0 produces. -/
def onlineDbRow (avg : ℚ) : DbHealthRow :=
  { status := "online", lastCheck := 0, lastSuccess := some 0,
    errorCount := 0, averageResponseTime := avg }

/-- Whether a raised/returned value is the specification's
`ValidationError`. -/
def isValidationError {V : Type} : Except PyErr V → Bool
  | .error (.validationError _) => true
  | _ => false

/-- A sequence of `Online` health updates with response times `rs`
applied through `ServerRegistry.update_server_health`. -/
def applyRegOnline (serverId : String) (reg : Registry) (rs : List ℚ) : Registry :=
  rs.foldl (fun r t => (regUpdateHealth r serverId "online" (some t) 0).1) reg

/-- The same sequence applied through
`MetadataStore.update_server_health`. -/
def applyMetaOnline (serverId : String) (db : DB) (rs : List ℚ) : DB :=
  rs.foldl (fun d t => (metaUpdateHealth d serverId "online" (some t) 0).1) db

/-- A sequence of `(status, response_time)` updates applied through the
Registry. -/
def applyRegSeq (serverId : String) (reg : Registry)
    (updates : List (String × Option ℚ)) : Registry :=
  updates.foldl (fun r u => (regUpdateHealth r serverId u.1 u.2 0).1) reg

/-- The same update sequence applied through the Metadata Store. -/
def applyMetaSeq (serverId : String) (db : DB)
    (updates : List (String × Option ℚ)) : DB :=
  updates.foldl (fun d u => (metaUpdateHealth d serverId u.1 u.2 0).1) db

/-- The stored `average_response_time` of a Registry health snapshot. -/
def regAvgOf (reg : Registry) (serverId : String) : Option ℚ :=
  (lookupKey serverId reg.serverHealth).map RegHealth.averageResponseTime

/-- The stored `average_response_time` of a Metadata Store health row. -/
def metaAvgOf (db : DB) (serverId : String) : Option ℚ :=
  (lookupKey serverId db.serverHealth).map DbHealthRow.averageResponseTime

/-- The claimed relation between the two health stores: records exist on
the same updates and carry equal EWMA values. -/
def healthAvgRel (reg : Registry) (db : DB) (serverId : String) : Prop :=
  match lookupKey serverId reg.serverHealth, lookupKey serverId db.serverHealth with
  | none, none => True
  | some hr, some hm => hr.averageResponseTime = hm.averageResponseTime
  | _, _ => False

/-- Number of entries currently in the disk tier. -/
def diskSizeOf {V : Type} (st : CMState V) : Nat :=
  match st.disk with
  | none => 0
  | some d => d.entries.length

/-- The disk-tier invariant of the amended LRU-bound claim: a positive
capacity that bounds the entry count. -/
def diskInv {V : Type} (st : CMState V) : Prop :=
  match st.disk with
  | none => True
  | some d => 1 ≤ d.maxSize ∧ d.entries.length ≤ d.maxSize

/-- The memory tier's `OrderedDict` is ordered by last access, oldest
first (maintained by `move_to_end` on hits and insertion at the end). -/
def memAccessOrdered {V : Type} (m : MemoryCache V) : Prop :=
  m.cache.Pairwise (fun a b => a.2.lastAccessedAt ≤ b.2.lastAccessedAt)

/-- The result of `MemoryCache.set` when it evicts: the head of the
access order is popped, the fresh entry lands at the end. -/
def evictInsertMem {V : Type} (m : MemoryCache V) (k : String) (v : V)
    (ttl : Option ℚ) (now : ℚ) (rest : List (String × CEntry V)) :
    MemoryCache V :=
  { m with
    cache := dropKey k rest ++
      [(k, { value := v, createdAt := now, expiresAt := ttl.map (now + ·),
             lastAccessedAt := now, accessCount := 0 })]
    evictions := m.evictions + 1 }

/-! ### Concrete states used by counterexamples and witnesses -/

/-- A concrete operation sequence for exercising the LRU bounds. -/
def lruOps : List (ℚ × CacheOp String) :=
  [(0, .set "a" "x" none []), (1, .set "b" "y" none []),
   (2, .get "a"), (3, .set "c" "z" none []), (4, .del "b"),
   (5, .invalidateTag "t"), (6, .clear)]

/-- A concrete two-entry disk tier. -/
def diskEx : DiskCache String :=
  { entries := [("a", { value := "x", createdAt := 0, lastAccessedAt := 5,
                        accessCount := 1, expiresAt := none }),
                ("b", { value := "y", createdAt := 0, lastAccessedAt := 3,
                        accessCount := 1, expiresAt := none })],
    maxSize := 10, hits := 0, misses := 0, evictions := 0, expirations := 0 }

/-- A concrete full capacity-2 memory tier, ordered by last access. -/
def memEx : MemoryCache String :=
  { cache := [("a", { value := "x", createdAt := 0, expiresAt := none,
                      lastAccessedAt := 1, accessCount := 0 }),
              ("b", { value := "y", createdAt := 0, expiresAt := none,
                      lastAccessedAt := 2, accessCount := 0 })],
    maxSize := 2, hits := 0, misses := 0, evictions := 0, expirations := 0 }

/-- An adapter-manager state in which server `"s1"` is connected and
owned by the loaded `"stdio"` adapter (the state
`connect_to_server` leaves behind). -/
def amConnected : AMState :=
  { adapters := ["stdio"], connections := ["s1"],
    serverAdapters := [("s1", "stdio")] }

/-- A metadata dict for `"s1"`: one capability, one tool whose schema
requires `"path"`, one tag. -/
def metaS1 : ServerMeta :=
  { name := some "S1", description := some "fs server",
    serverType := some "stdio", command := some "echo",
    argsJson := "[]", envJson := "",
    capabilities := some ["filesystem"],
    tools := some [("read", "Read a file", { required := ["path"] })],
    tags := some ["local"] }

/-- The database after registering `"s1"` with `metaS1`. -/
def dbS1 : DB := (storeServerMetadata DB.empty "s1" metaS1 0).1

/-- The database after additionally recording one usage row for
`"s1"`. -/
def dbS1used : DB := (recordServerUsage dbS1 "s1" "read" 1 true).1

/-- A composed facade state: fresh two-tier cache, `"s1"` connected,
`dbS1` as the metadata store. -/
def routerS1 : RouterState String :=
  { cm := CMState.init String 1000 10000 true, am := amConnected, db := dbS1 }

/-- A fresh registry that knows server `"s1"` but has no health snapshot
for it. -/
def regFreshS1 : Registry := { servers := [("s1", "cfg")], serverCapabilities := [], serverHealth := [] }

/-- A fresh database with a `servers` row for `"s1"` and no
`server_health` row. -/
def dbFreshS1 : DB :=
  { DB.empty with servers :=
      [{ id := "s1", name := "S1", description := "", serverType := "stdio",
         command := "echo", argsJson := "[]", envJson := "" }] }

/-- Trace for the TTL counterexample: capacity-1 memory tier, `set` of
`"k"` with TTL 10 at time 0, a second `set` at time 1 that evicts `"k"`
from memory, and a promoting `get` at time 2. -/
def cmTrace0 : CMState String := CMState.init String 1 10 true

def cmTrace1 : CMState String := (cmSet cmTrace0 "k" "v" (some 10) [] 0).2

def cmTrace2 : CMState String := (cmSet cmTrace1 "k2" "w" (some 10) [] 1).2

def cmTrace3 : CMState String := (cmGet cmTrace2 "k" 2).2

/-! ## Shared lemmas -/

theorem lookupKey_upsertKey_self {β : Type} (k : String) (v : β) :
    ∀ l : List (String × β), lookupKey k (upsertKey k v l) = some v := by
  intro l
  induction l with
  | nil => simp [upsertKey, lookupKey]
  | cons hd tl ih =>
    by_cases h : hd.1 = k
    · simp [upsertKey, lookupKey, h]
    · simp [upsertKey, lookupKey, h, ih]

theorem lookupKey_upsertKey_ne {β : Type} (k k' : String) (v : β) (hne : k ≠ k') :
    ∀ l : List (String × β), lookupKey k' (upsertKey k v l) = lookupKey k' l := by
  intro l
  induction l with
  | nil => simp [upsertKey, lookupKey, hne]
  | cons hd tl ih =>
    by_cases h : hd.1 = k
    · subst h
      simp [upsertKey, lookupKey, hne]
    · simp [upsertKey, lookupKey, h, ih]

theorem lookupKey_dropKey_self {β : Type} (k : String) :
    ∀ l : List (String × β), lookupKey k (dropKey k l) = none := by
  intro l
  induction l with
  | nil => simp [dropKey, lookupKey]
  | cons hd tl ih =>
    by_cases h : hd.1 = k
    · simpa [dropKey, h] using ih
    · simpa [dropKey, lookupKey, h] using ih

theorem lookupKey_dropKey_ne {β : Type} (k k' : String) (hne : k' ≠ k) :
    ∀ l : List (String × β), lookupKey k' (dropKey k l) = lookupKey k' l := by
  intro l
  induction l with
  | nil => rfl
  | cons hd tl ih =>
    by_cases h : hd.1 = k
    · have hne2 : ¬ hd.1 = k' := by
        intro hk
        exact hne (hk ▸ h)
      have hdrop : dropKey k (hd :: tl) = dropKey k tl := by
        simp [dropKey, h]
      rw [hdrop, ih]
      simp [lookupKey, hne2]
    · have hdrop : dropKey k (hd :: tl) = hd :: dropKey k tl := by
        simp [dropKey, h]
      rw [hdrop]
      by_cases h2 : hd.1 = k'
      · simp [lookupKey, h2]
      · simp [lookupKey, h2, ih]

theorem lookupKey_append_left_none {β : Type} (k : String)
    (l₁ l₂ : List (String × β)) (h : lookupKey k l₁ = none) :
    lookupKey k (l₁ ++ l₂) = lookupKey k l₂ := by
  induction l₁ with
  | nil => simp
  | cons hd tl ih =>
    by_cases hk : hd.1 = k
    · simp [lookupKey, hk] at h
    · simp [lookupKey, hk] at h ⊢
      exact ih h

/-- The binding all tier writes produce: lookup after
`dropKey k l ++ [(k, e)]` finds `e`. -/
theorem lookupKey_dropKey_append {β : Type} (k : String) (e : β)
    (l : List (String × β)) : lookupKey k (dropKey k l ++ [(k, e)]) = some e := by
  rw [lookupKey_append_left_none k _ _ (lookupKey_dropKey_self k l)]
  simp [lookupKey]

/-- `time` is not bound at module level in `adapter_manager.py`. -/
theorem time_unbound : lookupModuleGlobal "time" = .error (.nameError "time") := by
  decide

/-- No run of `AdapterManager.execute_tool` reaches the owning adapter:
the `start_time = time.time()` line raises first on every path that
passes the checks. -/
theorem amExecuteTool_not_invoked {V : Type} (st : AMState)
    (serverId toolName : String) (r : Except PyErr V) :
    (amExecuteTool st serverId toolName r).adapterInvoked = false := by
  unfold amExecuteTool
  by_cases h : serverId ∈ st.connections
  · simp only [h, if_true]
    cases hl : lookupKey serverId st.serverAdapters with
    | none => simp
    | some a =>
      by_cases h2 : a = "" ∨ ¬ a ∈ st.adapters
      · simp [h2]
      · simp [h2, time_unbound]
  · simp [h]

/-- Every run of `AdapterManager.execute_tool` raises. -/
theorem amExecuteTool_error {V : Type} (st : AMState)
    (serverId toolName : String) (r : Except PyErr V) :
    ∃ e, (amExecuteTool st serverId toolName r).result = .error e := by
  unfold amExecuteTool
  by_cases h : serverId ∈ st.connections
  · simp only [h, if_true]
    cases hl : lookupKey serverId st.serverAdapters with
    | none => exact ⟨_, rfl⟩
    | some a =>
      by_cases h2 : a = "" ∨ ¬ a ∈ st.adapters
      · simp [h2]
      · simp [h2, time_unbound]
  · simp [h]

/-! ## C10 -/

/-- C10: for every connected server (one whose id is mapped to a loaded
owning adapter), `AdapterManager.execute_tool` raises the unbound-name
error `NameError("time")` before the owning adapter's `execute_tool` is
invoked; consequently no `execute_tool` routed through the facade ever
invokes an adapter, and the facade can only return a value that was
already in the result cache. -/
theorem C10_time_unbound_blocks_execution {V : Type} (st : AMState)
    (serverId toolName : String) (adapterResult : Except PyErr V)
    (adapterName : String)
    (hconn : serverId ∈ st.connections)
    (hmap : lookupKey serverId st.serverAdapters = some adapterName)
    (hnz : adapterName ≠ "") (hload : adapterName ∈ st.adapters) :
    amExecuteTool st serverId toolName adapterResult =
      { result := .error (.nameError "time"), adapterInvoked := false } ∧
    ∀ (rst : RouterState V) (sid tool : String) (args : List (String × String))
      (r : Except PyErr V) (now : ℚ),
      (facadeExecuteTool rst sid tool args r now).adapterInvoked = false ∧
      ∀ v, (facadeExecuteTool rst sid tool args r now).result = .ok v →
        (cmGet rst.cm (execCacheKey sid tool args) now).1 = .ok (some v) := by
  constructor
  · have h2 : ¬ (adapterName = "" ∨ ¬ adapterName ∈ st.adapters) := by
      simp [hnz, hload]
    simp [amExecuteTool, hconn, hmap, h2, time_unbound]
  · intro rst sid tool args r now
    unfold facadeExecuteTool
    rcases hg : cmGet rst.cm (execCacheKey sid tool args) now with ⟨res, cm1⟩
    cases res with
    | error e => simp [hg]
    | ok o =>
      cases o with
      | some v =>
          refine ⟨by simp [hg], ?_⟩
          intro v' hv'
          simp [hg] at hv'
          simp [hg, hv']
      | none =>
          obtain ⟨e, he⟩ := amExecuteTool_error rst.am sid tool r
          simp [hg, he, amExecuteTool_not_invoked]

/-- Witness for C10 at a concrete connected state. -/
theorem C10_witness :
    ("s1" ∈ amConnected.connections) ∧
    lookupKey "s1" amConnected.serverAdapters = some "stdio" ∧
    amExecuteTool amConnected "s1" "read" (Except.ok "result") =
      { result := .error (.nameError "time"), adapterInvoked := false } :=
  ⟨by decide, by decide,
   (C10_time_unbound_blocks_execution amConnected "s1" "read" (Except.ok "result")
      "stdio" (by decide) (by decide) (by decide) (by decide)).1⟩

/-! ## C5 -/

/-- C5 counterexample: with known capability `"filesystem"` and the
query `"zz aa"` no query token of length > 3 exists (let alone matches a
capability), yet `_keyword_analysis` reports confidence `0.5`, not the
claimed `0.0`. -/
theorem C5_counterexample :
    tokenizeQuery "zz aa" = [] ∧
    (keywordAnalysis "zz aa" [("s1", ["filesystem"])]).requiredCapabilities = [] ∧
    (keywordAnalysis "zz aa" [("s1", ["filesystem"])]).confidence = 1 / 2 ∧
    ¬ (keywordAnalysis "zz aa" [("s1", ["filesystem"])]).confidence = 0 := by
  refine ⟨by decide, by decide, rfl, by norm_num [keywordAnalysis]⟩

/-- C5 amended: the keyword fallback returns confidence 0.5
*unconditionally* (match or no match); a capability is reported iff some
query token of length > 3 is contained in it case-insensitively. -/
theorem C5_keyword_confidence (userQuery : String)
    (serverCaps : List (String × List String)) :
    (keywordAnalysis userQuery serverCaps).confidence = 1 / 2 ∧
    ∀ c, c ∈ (keywordAnalysis userQuery serverCaps).requiredCapabilities ↔
      c ∈ allCapabilities serverCaps ∧
      ∃ kw ∈ tokenizeQuery userQuery, strContains (lowerStr c) kw = true := by
  refine ⟨rfl, ?_⟩
  intro c
  simp [keywordAnalysis, List.mem_filter, List.any_eq_true]

/-! ## C4 -/

theorem insertCapability_health (db : DB) (c : String) :
    (insertCapability db c).1.serverHealth = db.serverHealth := by
  unfold insertCapability
  cases h : db.capabilities.find? (fun x => x.2 = c) <;> simp [h]

theorem linkCapability_health (db : DB) (serverId : String) (capId : Nat) :
    (linkCapability db serverId capId).serverHealth = db.serverHealth := by
  unfold linkCapability
  split <;> rfl

theorem capsFold_health (serverId : String) (caps : List String) :
    ∀ db : DB,
      (caps.foldl (fun acc c =>
        let (acc1, capId) := insertCapability acc c
        linkCapability acc1 serverId capId) db).serverHealth = db.serverHealth := by
  induction caps with
  | nil => intro db; rfl
  | cons c rest ih =>
    intro db
    simp only [List.foldl_cons]
    rw [ih]
    rw [linkCapability_health, insertCapability_health]

theorem upsertTool_health (db : DB) (serverId toolName toolDescription : String)
    (schema : ToolSchema) :
    (upsertTool db serverId toolName toolDescription schema).serverHealth =
      db.serverHealth := by
  unfold upsertTool
  split <;> rfl

theorem toolsFold_health (serverId : String)
    (ts : List (String × String × ToolSchema)) :
    ∀ db : DB,
      (ts.foldl (fun acc t => upsertTool acc serverId t.1 t.2.1 t.2.2) db).serverHealth =
        db.serverHealth := by
  induction ts with
  | nil => intro db; rfl
  | cons t rest ih =>
    intro db
    simp only [List.foldl_cons]
    rw [ih, upsertTool_health]

theorem insertTagsStrict_health (serverId : String) (tags : List String) :
    ∀ db db' : DB, insertTagsStrict serverId db tags = some db' →
      db'.serverHealth = db.serverHealth := by
  induction tags with
  | nil =>
    intro db db' h
    simp [insertTagsStrict] at h
    rw [← h]
  | cons t rest ih =>
    intro db db' h
    simp only [insertTagsStrict] at h
    split at h
    · exact absurd h (by simp)
    · have h2 := ih _ _ h
      exact h2

theorem storeUpsertServerRow_health (db : DB) (serverId : String)
    (meta : ServerMeta) :
    (storeUpsertServerRow db serverId meta).serverHealth = db.serverHealth := by
  unfold storeUpsertServerRow
  split <;> rfl

theorem storeCaps_health (db : DB) (serverId : String) (meta : ServerMeta) :
    (storeCaps db serverId meta).serverHealth = db.serverHealth := by
  unfold storeCaps
  cases meta.capabilities with
  | none => rfl
  | some caps => rw [capsFold_health]

theorem storeTools_health (db : DB) (serverId : String) (meta : ServerMeta) :
    (storeTools db serverId meta).serverHealth = db.serverHealth := by
  unfold storeTools
  cases meta.tools with
  | none => rfl
  | some ts => rw [toolsFold_health]

theorem storeTags_health (db db' : DB) (serverId : String) (meta : ServerMeta)
    (h : storeTags db serverId meta = some db') :
    db'.serverHealth = db.serverHealth := by
  unfold storeTags at h
  cases htags : meta.tags with
  | none =>
    rw [htags] at h
    simp at h
    rw [← h]
  | some tags =>
    rw [htags] at h
    have h2 := insertTagsStrict_health serverId tags _ _ h
    exact h2

/-- On a fresh id, a successful `store_server_metadata` creates exactly
the `'unknown'` health row. -/
theorem storeServerMetadata_health_fresh (db : DB) (serverId : String)
    (meta : ServerMeta) (now : ℚ)
    (hfresh : lookupKey serverId db.serverHealth = none)
    (hok : (storeServerMetadata db serverId meta now).2 = true) :
    lookupKey serverId (storeServerMetadata db serverId meta now).1.serverHealth =
      some { status := "unknown", lastCheck := now, lastSuccess := none,
             errorCount := 0, averageResponseTime := 0 } := by
  unfold storeServerMetadata at hok ⊢
  dsimp only at hok ⊢
  cases hat : storeTags
      (storeTools (storeCaps (storeUpsertServerRow db serverId meta) serverId meta)
        serverId meta) serverId meta with
  | none =>
    rw [hat] at hok
    simp at hok
  | some db4 =>
    dsimp only
    have hdb4health : db4.serverHealth = db.serverHealth := by
      rw [storeTags_health _ _ _ _ hat, storeTools_health, storeCaps_health,
        storeUpsertServerRow_health]
    simp only [storeHealthInit]
    have hnone : (lookupKey serverId db4.serverHealth).isSome = false := by
      rw [hdb4health, hfresh]
      rfl
    simp only [hnone, Bool.false_eq_true, if_false]
    rw [lookupKey_append_left_none serverId _ _ (by rw [hdb4health]; exact hfresh)]
    simp [lookupKey]

/-- C4 counterexample: `ServerRegistry.register_server` creates the
health snapshot with status `"online"`, not the claimed `Unknown`. -/
theorem C4_counterexample :
    (lookupKey "s1" (registerServer Registry.empty "s1" "cfg" none 0).serverHealth).map
        RegHealth.status = some "online" ∧
    ¬ (lookupKey "s1" (registerServer Registry.empty "s1" "cfg" none 0).serverHealth).map
        RegHealth.status = some "unknown" := by
  constructor
  · rfl
  · intro h
    simp [registerServer, upsertKey, lookupKey, Registry.empty] at h

/-- C4 amended: after registration the Metadata Store's newly created
health row has status `'unknown'`, but the Registry snapshot installed
by `register_server` has status `"online"` (with
`last_successful_connection` set although no connection happened). -/
theorem C4_registration_health_status (reg : Registry) (serverId cfg : String)
    (capabilities : Option (List String)) (db : DB) (meta : ServerMeta) (now : ℚ)
    (hfresh : lookupKey serverId db.serverHealth = none)
    (hok : (storeServerMetadata db serverId meta now).2 = true) :
    (lookupKey serverId (registerServer reg serverId cfg capabilities now).serverHealth).map
        RegHealth.status = some "online" ∧
    (lookupKey serverId (storeServerMetadata db serverId meta now).1.serverHealth).map
        DbHealthRow.status = some "unknown" := by
  constructor
  · simp [registerServer, lookupKey_upsertKey_self]
  · rw [storeServerMetadata_health_fresh db serverId meta now hfresh hok]
    rfl

/-- Witness for C4's amended statement on concrete fresh states. -/
theorem C4_witness :
    lookupKey "s1" DB.empty.serverHealth = none ∧
    (storeServerMetadata DB.empty "s1" metaS1 0).2 = true ∧
    ((lookupKey "s1" (registerServer Registry.empty "s1" "cfg" none 0).serverHealth).map
        RegHealth.status = some "online" ∧
     (lookupKey "s1" (storeServerMetadata DB.empty "s1" metaS1 0).1.serverHealth).map
        DbHealthRow.status = some "unknown") :=
  ⟨rfl, by decide,
   C4_registration_health_status Registry.empty "s1" "cfg" none DB.empty metaS1 0
     rfl (by decide)⟩

/-! ## C7 -/

theorem regUpdateHealth_servers (reg : Registry) (serverId status : String)
    (rt : Option ℚ) (now : ℚ) :
    (regUpdateHealth reg serverId status rt now).1.servers = reg.servers := by
  unfold regUpdateHealth
  split
  · split <;> rfl
  · rfl

theorem metaUpdateHealth_servers (db : DB) (serverId status : String)
    (rt : Option ℚ) (now : ℚ) :
    (metaUpdateHealth db serverId status rt now).1.servers = db.servers := by
  unfold metaUpdateHealth
  split
  · split <;> rfl
  · rfl

/-- Registry: once a health record exists, each `Online` update with a
response time applies one EWMA step. -/
theorem regOnline_fold_avg (serverId : String) (rs : List ℚ) :
    ∀ (reg : Registry) (h : RegHealth),
      hasKey serverId reg.servers = true →
      lookupKey serverId reg.serverHealth = some h →
      (lookupKey serverId (applyRegOnline serverId reg rs).serverHealth).map
          RegHealth.averageResponseTime =
        some (rs.foldl (fun a r => ewmaStep r a) h.averageResponseTime) := by
  induction rs with
  | nil =>
    intro reg h hs hh
    simp [applyRegOnline, hh]
  | cons r rest ih =>
    intro reg h hs hh
    have hstep : applyRegOnline serverId reg (r :: rest) =
        applyRegOnline serverId (regUpdateHealth reg serverId "online" (some r) 0).1 rest := rfl
    have hreg1 : (regUpdateHealth reg serverId "online" (some r) 0).1 =
        regWithHealth reg
          (upsertKey serverId (onlineRegRow (ewmaStep r h.averageResponseTime)) reg.serverHealth) := by
      simp [regUpdateHealth, hs, hh, onlineRegRow, regWithHealth]
    rw [hstep, hreg1]
    have hrec := ih
      (regWithHealth reg
        (upsertKey serverId (onlineRegRow (ewmaStep r h.averageResponseTime)) reg.serverHealth))
      (onlineRegRow (ewmaStep r h.averageResponseTime))
      hs (by simp [regWithHealth, lookupKey_upsertKey_self])
    rw [hrec]
    simp [onlineRegRow]

/-- Metadata Store: once a health row exists, each `Online` update with
a response time applies one EWMA step. -/
theorem metaOnline_fold_avg (serverId : String) (rs : List ℚ) :
    ∀ (db : DB) (h : DbHealthRow),
      DB.hasServer db serverId = true →
      lookupKey serverId db.serverHealth = some h →
      (lookupKey serverId (applyMetaOnline serverId db rs).serverHealth).map
          DbHealthRow.averageResponseTime =
        some (rs.foldl (fun a r => ewmaStep r a) h.averageResponseTime) := by
  induction rs with
  | nil =>
    intro db h hs hh
    simp [applyMetaOnline, hh]
  | cons r rest ih =>
    intro db h hs hh
    have hstep : applyMetaOnline serverId db (r :: rest) =
        applyMetaOnline serverId (metaUpdateHealth db serverId "online" (some r) 0).1 rest := rfl
    have hdb1 : (metaUpdateHealth db serverId "online" (some r) 0).1 =
        dbWithHealth db
          (upsertKey serverId (onlineDbRow (ewmaStep r h.averageResponseTime)) db.serverHealth) := by
      simp [metaUpdateHealth, hs, hh, onlineDbRow, dbWithHealth]
    rw [hstep, hdb1]
    have hrec := ih
      (dbWithHealth db
        (upsertKey serverId (onlineDbRow (ewmaStep r h.averageResponseTime)) db.serverHealth))
      (onlineDbRow (ewmaStep r h.averageResponseTime))
      hs (by simp [dbWithHealth, lookupKey_upsertKey_self])
    rw [hrec]
    simp [onlineDbRow]

/-- C7: starting from a fresh health record (the server is known but no
health record exists yet), a sequence of `Online` updates carrying
response times `r₁…rₙ` leaves exactly the specification's fold
`ewma₀ = r₁; ewmaᵢ = 0.3·rᵢ + 0.7·ewmaᵢ₋₁` in the Registry and in the
Metadata Store alike. -/
theorem C7_ewma_fold (serverId : String) (reg : Registry) (db : DB)
    (rs : List ℚ) (hne : rs ≠ [])
    (hregS : hasKey serverId reg.servers = true)
    (hregH : lookupKey serverId reg.serverHealth = none)
    (hdbS : DB.hasServer db serverId = true)
    (hdbH : lookupKey serverId db.serverHealth = none) :
    regAvgOf (applyRegOnline serverId reg rs) serverId = specEwma rs ∧
    metaAvgOf (applyMetaOnline serverId db rs) serverId = specEwma rs := by
  cases rs with
  | nil => exact absurd rfl hne
  | cons r rest =>
    constructor
    · have hstep : applyRegOnline serverId reg (r :: rest) =
          applyRegOnline serverId (regUpdateHealth reg serverId "online" (some r) 0).1 rest := rfl
      have hreg1 : (regUpdateHealth reg serverId "online" (some r) 0).1 =
          regWithHealth reg (upsertKey serverId (onlineRegRow r) reg.serverHealth) := by
        simp [regUpdateHealth, hregS, hregH, onlineRegRow, regWithHealth]
      unfold regAvgOf
      rw [hstep, hreg1,
        regOnline_fold_avg serverId rest
          (regWithHealth reg (upsertKey serverId (onlineRegRow r) reg.serverHealth))
          (onlineRegRow r)
          hregS (by simp [regWithHealth, lookupKey_upsertKey_self])]
      simp [specEwma, onlineRegRow]
    · have hstep : applyMetaOnline serverId db (r :: rest) =
          applyMetaOnline serverId (metaUpdateHealth db serverId "online" (some r) 0).1 rest := rfl
      have hdb1 : (metaUpdateHealth db serverId "online" (some r) 0).1 =
          dbWithHealth db (db.serverHealth ++ [(serverId, onlineDbRow r)]) := by
        simp [metaUpdateHealth, hdbS, hdbH, onlineDbRow, dbWithHealth]
      unfold metaAvgOf
      rw [hstep, hdb1,
        metaOnline_fold_avg serverId rest
          (dbWithHealth db (db.serverHealth ++ [(serverId, onlineDbRow r)]))
          (onlineDbRow r)
          hdbS
          (by
            show lookupKey serverId (db.serverHealth ++ [(serverId, onlineDbRow r)]) = _
            rw [lookupKey_append_left_none serverId _ _ hdbH]
            simp [lookupKey])]
      simp [specEwma, onlineDbRow]

/-- Witness for C7 on concrete fresh states with `rs = [1, 2]`. -/
theorem C7_witness :
    ([1, 2] ≠ ([] : List ℚ)) ∧
    hasKey "s1" regFreshS1.servers = true ∧
    lookupKey "s1" regFreshS1.serverHealth = none ∧
    DB.hasServer dbFreshS1 "s1" = true ∧
    lookupKey "s1" dbFreshS1.serverHealth = none ∧
    (regAvgOf (applyRegOnline "s1" regFreshS1 [1, 2]) "s1" = specEwma [1, 2] ∧
     metaAvgOf (applyMetaOnline "s1" dbFreshS1 [1, 2]) "s1" = specEwma [1, 2]) :=
  ⟨by simp, by decide, rfl, by decide, rfl,
   C7_ewma_fold "s1" regFreshS1 dbFreshS1 [1, 2] (by simp) (by decide) rfl
     (by decide) rfl⟩

/-! ## C8 -/

/-- One identical update applied to both stores preserves the
equal-EWMA relation — provided a non-`online` update carries no
response time (the Registry would apply the EWMA then, the Metadata
Store would not). -/
theorem healthAvgRel_step (reg : Registry) (db : DB) (serverId status : String)
    (rt : Option ℚ) (now now' : ℚ)
    (hs : hasKey serverId reg.servers = true)
    (hd : DB.hasServer db serverId = true)
    (hrel : healthAvgRel reg db serverId)
    (hnon : status ≠ "online" → rt = none) :
    healthAvgRel (regUpdateHealth reg serverId status rt now).1
      (metaUpdateHealth db serverId status rt now').1 serverId := by
  unfold healthAvgRel at hrel ⊢
  cases hr : lookupKey serverId reg.serverHealth with
  | none =>
    cases hm : lookupKey serverId db.serverHealth with
    | none =>
      simp [regUpdateHealth, metaUpdateHealth, hs, hd, hr, hm,
        lookupKey_upsertKey_self,
        lookupKey_append_left_none serverId _ _ hm, lookupKey]
    | some m =>
      rw [hr, hm] at hrel
      exact absurd hrel (by simp)
  | some r0 =>
    cases hm : lookupKey serverId db.serverHealth with
    | none =>
      rw [hr, hm] at hrel
      exact absurd hrel (by simp)
    | some m0 =>
      rw [hr, hm] at hrel
      by_cases hon : status = "online"
      · subst hon
        cases rt with
        | none =>
          simp [regUpdateHealth, metaUpdateHealth, hs, hd, hr, hm,
            lookupKey_upsertKey_self, hrel]
        | some rv =>
          simp [regUpdateHealth, metaUpdateHealth, hs, hd, hr, hm,
            lookupKey_upsertKey_self, hrel]
      · have hrtnone : rt = none := hnon hon
        subst hrtnone
        simp [regUpdateHealth, metaUpdateHealth, hs, hd, hr, hm, hon,
          lookupKey_upsertKey_self, hrel]

/-- The relation is preserved along any shared update sequence whose
non-`online` updates carry no response times. -/
theorem healthAvgRel_run (serverId : String)
    (updates : List (String × Option ℚ)) :
    ∀ (reg : Registry) (db : DB),
      hasKey serverId reg.servers = true →
      DB.hasServer db serverId = true →
      healthAvgRel reg db serverId →
      (∀ u ∈ updates, u.1 ≠ "online" → u.2 = none) →
      healthAvgRel (applyRegSeq serverId reg updates)
        (applyMetaSeq serverId db updates) serverId := by
  induction updates with
  | nil =>
    intro reg db _ _ hrel _
    exact hrel
  | cons u rest ih =>
    intro reg db hs hd hrel hus
    have hstep : applyRegSeq serverId reg (u :: rest) =
        applyRegSeq serverId (regUpdateHealth reg serverId u.1 u.2 0).1 rest := rfl
    have hstep' : applyMetaSeq serverId db (u :: rest) =
        applyMetaSeq serverId (metaUpdateHealth db serverId u.1 u.2 0).1 rest := rfl
    rw [hstep, hstep']
    have hs1 : hasKey serverId (regUpdateHealth reg serverId u.1 u.2 0).1.servers = true := by
      rw [regUpdateHealth_servers]; exact hs
    have hd1 : DB.hasServer (metaUpdateHealth db serverId u.1 u.2 0).1 serverId = true := by
      unfold DB.hasServer
      rw [metaUpdateHealth_servers]
      exact hd
    exact ih _ _ hs1 hd1
      (healthAvgRel_step reg db serverId u.1 u.2 0 0 hs hd hrel
        (hus u (by simp)))
      (fun v hv => hus v (by simp [hv]))

/-- C8 counterexample: from fresh health state on both sides, the
update sequence `Online(r=1)` then `offline(r=2)` leaves
`average_response_time = 1.3` in the Registry (it applies the EWMA on
*any* status when a response time is present) but `1.0` in the Metadata
Store (EWMA only on `online`) — the two stores drift. -/
theorem C8_counterexample :
    regAvgOf (applyRegSeq "s1" regFreshS1 [("online", some 1), ("offline", some 2)]) "s1" =
      some (13 / 10) ∧
    metaAvgOf (applyMetaSeq "s1" dbFreshS1 [("online", some 1), ("offline", some 2)]) "s1" =
      some 1 ∧
    ¬ regAvgOf (applyRegSeq "s1" regFreshS1 [("online", some 1), ("offline", some 2)]) "s1" =
        metaAvgOf (applyMetaSeq "s1" dbFreshS1 [("online", some 1), ("offline", some 2)]) "s1" := by
  refine ⟨?_, ?_, ?_⟩
  · norm_num [applyRegSeq, regUpdateHealth, regFreshS1, regAvgOf, hasKey, lookupKey,
      upsertKey, ewmaStep, alpha]
  · norm_num [applyMetaSeq, metaUpdateHealth, dbFreshS1, metaAvgOf, DB.hasServer,
      DB.empty, lookupKey, upsertKey, ewmaStep, alpha,
      (show ¬ (("offline" : String) = "online") by decide)]
  · norm_num [applyRegSeq, applyMetaSeq, regUpdateHealth, metaUpdateHealth,
      regFreshS1, dbFreshS1, regAvgOf, metaAvgOf, hasKey, DB.hasServer, DB.empty,
      lookupKey, upsertKey, ewmaStep, alpha,
      (show ¬ (("offline" : String) = "online") by decide)]

/-- C8 amended: the two `update_server_health` implementations leave the
same `average_response_time` for every shared update sequence in which
non-`Online` updates carry no response time; the Metadata Store leaves
the EWMA unchanged on every non-`Online` update, whereas the Registry
preserves it on non-`Online` updates only when no response time is
supplied. -/
theorem C8_registry_metadata_ewma_agreement (serverId : String)
    (updates : List (String × Option ℚ)) (reg : Registry) (db : DB)
    (hs : hasKey serverId reg.servers = true)
    (hd : DB.hasServer db serverId = true)
    (hrel : healthAvgRel reg db serverId)
    (hus : ∀ u ∈ updates, u.1 ≠ "online" → u.2 = none) :
    regAvgOf (applyRegSeq serverId reg updates) serverId =
      metaAvgOf (applyMetaSeq serverId db updates) serverId ∧
    ∀ (db' : DB) (sid status : String) (rt : Option ℚ) (now : ℚ) (h : DbHealthRow),
      status ≠ "online" →
      lookupKey sid db'.serverHealth = some h →
      metaAvgOf (metaUpdateHealth db' sid status rt now).1 sid =
        some h.averageResponseTime := by
  constructor
  · have hfin := healthAvgRel_run serverId updates reg db hs hd hrel hus
    unfold healthAvgRel at hfin
    unfold regAvgOf metaAvgOf
    cases hr : lookupKey serverId (applyRegSeq serverId reg updates).serverHealth with
    | none =>
      cases hm : lookupKey serverId (applyMetaSeq serverId db updates).serverHealth with
      | none => rfl
      | some m =>
        rw [hr, hm] at hfin
        exact absurd hfin (by simp)
    | some r0 =>
      cases hm : lookupKey serverId (applyMetaSeq serverId db updates).serverHealth with
      | none =>
        rw [hr, hm] at hfin
        exact absurd hfin (by simp)
      | some m0 =>
        rw [hr, hm] at hfin
        simp [hfin]
  · intro db' sid status rt now h hstatus hrow
    unfold metaAvgOf
    by_cases hserver : DB.hasServer db' sid
    · simp [metaUpdateHealth, hserver, hrow, hstatus, lookupKey_upsertKey_self]
    · simp [metaUpdateHealth, hserver, hrow]

/-- Witness for C8's amended statement: a concrete sequence whose
non-`Online` update has no response time keeps the two stores equal. -/
theorem C8_witness :
    hasKey "s1" regFreshS1.servers = true ∧
    DB.hasServer dbFreshS1 "s1" = true ∧
    healthAvgRel regFreshS1 dbFreshS1 "s1" ∧
    (∀ u ∈ [("online", some (1 : ℚ)), ("error", none)], u.1 ≠ "online" → u.2 = none) ∧
    regAvgOf (applyRegSeq "s1" regFreshS1 [("online", some 1), ("error", none)]) "s1" =
      metaAvgOf (applyMetaSeq "s1" dbFreshS1 [("online", some 1), ("error", none)]) "s1" :=
  ⟨by decide, by decide, by simp [healthAvgRel, regFreshS1, dbFreshS1, DB.empty, lookupKey],
   by decide,
   (C8_registry_metadata_ewma_agreement "s1" [("online", some 1), ("error", none)]
      regFreshS1 dbFreshS1 (by decide) (by decide)
      (by simp [healthAvgRel, regFreshS1, dbFreshS1, DB.empty, lookupKey])
      (by decide)).1⟩

/-! ## C1 and C3: facade `execute_tool` behaviour -/

/-- On a consistent connected state, `AdapterManager.execute_tool`
always produces `NameError("time")` without invoking the adapter. -/
theorem amExecuteTool_consistent_nameError {V : Type} (st : AMState)
    (serverId toolName : String) (r : Except PyErr V) (adapterName : String)
    (hconn : serverId ∈ st.connections)
    (hmap : lookupKey serverId st.serverAdapters = some adapterName)
    (hnz : adapterName ≠ "") (hload : adapterName ∈ st.adapters) :
    amExecuteTool st serverId toolName r =
      { result := .error (.nameError "time"), adapterInvoked := false } := by
  have h2 : ¬ (adapterName = "" ∨ ¬ adapterName ∈ st.adapters) := by
    simp [hnz, hload]
  simp [amExecuteTool, hconn, hmap, h2, time_unbound]

/-- `MCPRouterEnhanced.execute_tool` never writes to the metadata
store: the composed database is untouched on every path. -/
theorem facadeExecuteTool_db {V : Type} (st : RouterState V)
    (serverId toolName : String) (args : List (String × String))
    (r : Except PyErr V) (now : ℚ) :
    (facadeExecuteTool st serverId toolName args r now).state.db = st.db := by
  unfold facadeExecuteTool
  dsimp only
  rcases hg : cmGet st.cm (execCacheKey serverId toolName args) now with ⟨res, cm1⟩
  cases res with
  | error e => simp [hg]
  | ok o =>
    cases o with
    | some v => simp [hg]
    | none =>
      cases hr : (amExecuteTool st.am serverId toolName r).result with
      | error e => simp [hg, hr]
      | ok rv =>
        rcases hset : cmSet cm1 (execCacheKey serverId toolName args) rv (some 300) [] now
          with ⟨sres, cm2⟩
        cases sres with
        | error e => simp [hg, hr, hset]
        | ok b => simp [hg, hr, hset]

/-- On a cache miss whose adapter-manager call raises `e`, the facade
re-raises `e`, reports the adapter-manager's invocation flag, and leaves
the database untouched. -/
theorem facade_miss_error {V : Type} (st : RouterState V)
    (serverId toolName : String) (args : List (String × String))
    (r : Except PyErr V) (now : ℚ) (e : PyErr)
    (hmiss : (cmGet st.cm (execCacheKey serverId toolName args) now).1 = .ok none)
    (herr : (amExecuteTool st.am serverId toolName r).result = .error e) :
    (facadeExecuteTool st serverId toolName args r now).result = .error e ∧
    (facadeExecuteTool st serverId toolName args r now).adapterInvoked =
      (amExecuteTool st.am serverId toolName r).adapterInvoked ∧
    (facadeExecuteTool st serverId toolName args r now).state.db = st.db := by
  refine ⟨?_, ?_, facadeExecuteTool_db st serverId toolName args r now⟩ <;>
  · unfold facadeExecuteTool
    dsimp only
    rcases hg : cmGet st.cm (execCacheKey serverId toolName args) now with ⟨res, cm1⟩
    rw [hg] at hmiss
    simp only at hmiss
    subst hmiss
    simp [hg, herr]

/-- C1 counterexample: a concrete cache-miss `execute_tool` call on a
connected server.  The adapter manager raises (`NameError("time")`), the
facade re-raises it, and the `server_usage` table — empty before the
call — is still empty afterwards, not extended by the claimed one
failed-usage row. -/
theorem C1_counterexample :
    routerS1.db.serverUsage = [] ∧
    (cmGet routerS1.cm (execCacheKey "s1" "read" []) 0).1 = .ok none ∧
    (facadeExecuteTool routerS1 "s1" "read" [] (Except.ok "res") 0).result =
      .error (.nameError "time") ∧
    (facadeExecuteTool routerS1 "s1" "read" [] (Except.ok "res") 0).state.db.serverUsage = [] ∧
    ¬ (facadeExecuteTool routerS1 "s1" "read" [] (Except.ok "res") 0).state.db.serverUsage.length =
        routerS1.db.serverUsage.length + 1 := by
  refine ⟨by decide, by decide, by decide, by decide, by decide⟩

/-- C1 amended: on a cache miss the facade delegates to the Adapter
Manager and re-raises its error; on success it caches the result; in
*neither* case is a `UsageRecord` appended —
`MetadataStore.record_server_usage` has no caller, and
`execute_tool` never touches the metadata store at all. -/
theorem C1_no_usage_record {V : Type} (st : RouterState V)
    (serverId toolName : String) (args : List (String × String))
    (r : Except PyErr V) (now : ℚ) (e : PyErr)
    (hmiss : (cmGet st.cm (execCacheKey serverId toolName args) now).1 = .ok none)
    (herr : (amExecuteTool st.am serverId toolName r).result = .error e) :
    (facadeExecuteTool st serverId toolName args r now).result = .error e ∧
    (facadeExecuteTool st serverId toolName args r now).state.db.serverUsage =
      st.db.serverUsage ∧
    ∀ (st' : RouterState V) (sid tool : String) (args' : List (String × String))
      (r' : Except PyErr V) (now' : ℚ),
      (facadeExecuteTool st' sid tool args' r' now').state.db.serverUsage =
        st'.db.serverUsage := by
  obtain ⟨h1, _, h3⟩ := facade_miss_error st serverId toolName args r now e hmiss herr
  refine ⟨h1, by rw [h3], ?_⟩
  intro st' sid tool args' r' now'
  rw [facadeExecuteTool_db]

/-- Witness for C1's amended statement at the concrete miss state. -/
theorem C1_witness :
    (cmGet routerS1.cm (execCacheKey "s1" "read" []) 0).1 = .ok none ∧
    (amExecuteTool routerS1.am "s1" "read" (Except.ok "res")).result =
      .error (.nameError "time") ∧
    ((facadeExecuteTool routerS1 "s1" "read" [] (Except.ok "res") 0).result =
       .error (.nameError "time") ∧
     (facadeExecuteTool routerS1 "s1" "read" [] (Except.ok "res") 0).state.db.serverUsage =
       routerS1.db.serverUsage) :=
  ⟨by decide, by decide,
   by
    obtain ⟨h1, h2, _⟩ := C1_no_usage_record routerS1 "s1" "read" []
      (Except.ok "res") 0 (.nameError "time") (by decide) (by decide)
    exact ⟨h1, h2⟩⟩

/-- C3 counterexample: the stored schema of tool `read` on server `s1`
requires `"path"`, the call passes `{}` — yet no `ValidationError` is
raised: the call fails with the adapter manager's `NameError("time")`
(no validation code exists on the path), the adapter is not invoked, and
no usage row is appended. -/
theorem C3_counterexample :
    (dbS1.tools.find? (fun t => t.serverId == "s1" && t.name == "read")).map
        (fun t => t.schema.required) = some ["path"] ∧
    lookupKey "path" ([] : List (String × String)) = none ∧
    (facadeExecuteTool routerS1 "s1" "read" [] (Except.ok "res") 0).result =
      .error (.nameError "time") ∧
    isValidationError
      (facadeExecuteTool routerS1 "s1" "read" [] (Except.ok "res") 0).result = false ∧
    (facadeExecuteTool routerS1 "s1" "read" [] (Except.ok "res") 0).adapterInvoked = false ∧
    (facadeExecuteTool routerS1 "s1" "read" [] (Except.ok "res") 0).state.db.serverUsage =
      routerS1.db.serverUsage := by
  refine ⟨by decide, by decide, by decide, by decide, by decide, by decide⟩

/-- C3 amended: when the stored JSON schema of the addressed tool lists
a required property absent from the arguments, the call does *not*
raise a `ValidationError` — no argument validation exists on the
execute path; instead the adapter manager's unbound-`time` `NameError`
is raised (before the adapter is invoked), and no `UsageRecord` is
appended. -/
theorem C3_missing_required_arg {V : Type} (st : RouterState V)
    (serverId toolName : String) (args : List (String × String))
    (r : Except PyErr V) (now : ℚ) (t : ToolRow) (fld adapterName : String)
    (htool : t ∈ st.db.tools) (hsid : t.serverId = serverId)
    (hname : t.name = toolName)
    (hreq : fld ∈ t.schema.required) (hmissing : lookupKey fld args = none)
    (hconn : serverId ∈ st.am.connections)
    (hmap : lookupKey serverId st.am.serverAdapters = some adapterName)
    (hnz : adapterName ≠ "") (hload : adapterName ∈ st.am.adapters)
    (hmiss : (cmGet st.cm (execCacheKey serverId toolName args) now).1 = .ok none) :
    (facadeExecuteTool st serverId toolName args r now).result =
      .error (.nameError "time") ∧
    isValidationError (facadeExecuteTool st serverId toolName args r now).result = false ∧
    (facadeExecuteTool st serverId toolName args r now).adapterInvoked = false ∧
    (facadeExecuteTool st serverId toolName args r now).state.db.serverUsage =
      st.db.serverUsage := by
  have ham := amExecuteTool_consistent_nameError st.am serverId toolName r adapterName
    hconn hmap hnz hload
  have herr : (amExecuteTool st.am serverId toolName r).result =
      .error (.nameError "time") := by rw [ham]
  obtain ⟨h1, h2, h3⟩ := facade_miss_error st serverId toolName args r now
    (.nameError "time") hmiss herr
  refine ⟨h1, ?_, ?_, by rw [h3]⟩
  · rw [h1]
    rfl
  · rw [h2, ham]

/-- Witness for C3's amended statement at the concrete state: tool
`read` of `s1` requires `"path"`, the arguments are `{}`. -/
theorem C3_witness :
    ({ serverId := "s1", name := "read", description := "Read a file",
       schema := { required := ["path"] } } : ToolRow) ∈ routerS1.db.tools ∧
    lookupKey "path" ([] : List (String × String)) = none ∧
    ((facadeExecuteTool routerS1 "s1" "read" [] (Except.ok "res") 0).result =
       .error (.nameError "time") ∧
     isValidationError
       (facadeExecuteTool routerS1 "s1" "read" [] (Except.ok "res") 0).result = false ∧
     (facadeExecuteTool routerS1 "s1" "read" [] (Except.ok "res") 0).adapterInvoked = false ∧
     (facadeExecuteTool routerS1 "s1" "read" [] (Except.ok "res") 0).state.db.serverUsage =
       routerS1.db.serverUsage) :=
  ⟨by decide, by decide,
   C3_missing_required_arg routerS1 "s1" "read" [] (Except.ok "res") 0
     { serverId := "s1", name := "read", description := "Read a file",
       schema := { required := ["path"] } }
     "path" "stdio" (by decide) rfl rfl (by decide) (by decide) (by decide)
     (by decide) (by decide) (by decide) (by decide)⟩

/-! ## C2 -/

/-- C2, evaluated at the failing input: register `s1` with a tool, a
capability and a tag, record one usage row, then `delete_server("s1")`.
The call reports success and removes the `servers` row, but — because
`delete_server` runs on a fresh connection that never issues
`PRAGMA foreign_keys = ON` — the declared `ON DELETE CASCADE` actions do
not fire: `tools`, `server_usage`, `server_capabilities`, `server_tags`
(and `server_health`) rows for `s1` all survive.  Had the connection had
foreign keys on (`sqlDeleteServerRow true`), every child row would have
been removed, which is what the schema and the code comment intend. -/
theorem C2_delete_server_leaves_orphans :
    (deleteServer dbS1used "s1").2 = true ∧
    (deleteServer dbS1used "s1").1.servers = [] ∧
    (deleteServer dbS1used "s1").1.tools.any (fun t => t.serverId == "s1") = true ∧
    (deleteServer dbS1used "s1").1.serverUsage.any (fun u => u.serverId == "s1") = true ∧
    (deleteServer dbS1used "s1").1.serverCapabilities.any (fun l => l.1 == "s1") = true ∧
    (deleteServer dbS1used "s1").1.serverTags.any (fun t => t.1 == "s1") = true ∧
    (deleteServer dbS1used "s1").1.serverHealth.any (fun h => h.1 == "s1") = true ∧
    ((sqlDeleteServerRow true dbS1used "s1").tools.any (fun t => t.serverId == "s1") = false ∧
     (sqlDeleteServerRow true dbS1used "s1").serverUsage.any (fun u => u.serverId == "s1") = false ∧
     (sqlDeleteServerRow true dbS1used "s1").serverCapabilities.any (fun l => l.1 == "s1") = false ∧
     (sqlDeleteServerRow true dbS1used "s1").serverTags.any (fun t => t.1 == "s1") = false) := by
  refine ⟨by decide, by decide, by decide, by decide, by decide, by decide, by decide,
    by decide, by decide, by decide, by decide⟩

/-! ## C6 -/

/-- A successful `MemoryCache.set` (possible whenever the capacity is
positive) leaves the fresh entry, with `expires_at = now + ttl`,
reachable under its key. -/
theorem memSet_cache {V : Type} (m : MemoryCache V) (k : String) (v : V)
    (ttl : Option ℚ) (now : ℚ) (h : 1 ≤ m.maxSize) :
    ∃ m1, memSet m k v ttl now = some m1 ∧
      lookupKey k m1.cache =
        some { value := v, createdAt := now, expiresAt := ttl.map (now + ·),
               lastAccessedAt := now, accessCount := 0 } ∧
      m1.maxSize = m.maxSize := by
  unfold memSet
  dsimp only
  by_cases hc : m.maxSize ≤ m.cache.length ∧ ¬ hasKey k m.cache = true
  · rw [if_pos hc]
    cases hm : m.cache with
    | nil =>
      exfalso
      have h1 := hc.1
      rw [hm] at h1
      simp at h1
      omega
    | cons hd tl =>
      exact ⟨_, rfl, lookupKey_dropKey_append _ _ _, rfl⟩
  · rw [if_neg hc]
    exact ⟨_, rfl, lookupKey_dropKey_append _ _ _, rfl⟩

/-- `CacheManager.set` with no tags: both tiers are written and the call
reports success. -/
theorem cmSet_state {V : Type} (st : CMState V) (k : String) (v : V)
    (ttl : Option ℚ) (now : ℚ) (mem1 : MemoryCache V)
    (hset : memSet st.memory k v ttl now = some mem1) :
    cmSet st k v ttl [] now =
      (.ok true,
       { st with
         memory := mem1
         disk := st.disk.map (fun d => diskSet d k v ttl now) }) := by
  unfold cmSet
  rw [hset]
  rfl

/-- `DiskCache.set` leaves the fresh entry reachable under its key. -/
theorem diskSet_lookup {V : Type} (d : DiskCache V) (k : String) (v : V)
    (ttl : Option ℚ) (now : ℚ) :
    lookupKey k (diskSet d k v ttl now).entries =
      some { value := v, createdAt := now, lastAccessedAt := now,
             accessCount := 0, expiresAt := ttl.map (now + ·) } := by
  unfold diskSet
  dsimp only
  exact lookupKey_dropKey_append _ _ _

/-- `MemoryCache.get` on a live entry returns its value. -/
theorem memGet_fst_live {V : Type} (m : MemoryCache V) (k : String)
    (now : ℚ) (e : CEntry V) (hl : lookupKey k m.cache = some e)
    (hexp : e.isExpired now = false) :
    (memGet m k now).1 = some e.value := by
  unfold memGet
  rw [hl]
  simp [hexp]

/-- `MemoryCache.get` on an expired entry lazily deletes it and
misses. -/
theorem memGet_fst_expired {V : Type} (m : MemoryCache V) (k : String)
    (now : ℚ) (e : CEntry V) (hl : lookupKey k m.cache = some e)
    (hexp : e.isExpired now = true) :
    (memGet m k now).1 = none := by
  unfold memGet
  rw [hl]
  simp [hexp]

/-- `DiskCache.get` on an expired entry lazily deletes it and misses. -/
theorem diskGet_fst_expired {V : Type} (d : DiskCache V) (k : String)
    (now : ℚ) (e : DiskEntry V) (hl : lookupKey k d.entries = some e)
    (hexp : e.isExpired now = true) :
    (diskGet d k now).1 = none := by
  unfold diskGet
  rw [hl]
  simp [hexp]

/-- `CacheManager.get` result on a memory hit. -/
theorem cmGet_fst_of_mem_hit {V : Type} (st : CMState V) (k : String)
    (now : ℚ) (v : V) (h : (memGet st.memory k now).1 = some v) :
    (cmGet st k now).1 = .ok (some v) := by
  unfold cmGet
  rcases hm : memGet st.memory k now with ⟨mv, mem1⟩
  rw [hm] at h
  dsimp only at h
  subst h
  rfl

/-- `CacheManager.get` result on a memory miss with no disk tier. -/
theorem cmGet_fst_of_miss_none {V : Type} (st : CMState V) (k : String)
    (now : ℚ) (h : (memGet st.memory k now).1 = none) (hd : st.disk = none) :
    (cmGet st k now).1 = .ok none := by
  unfold cmGet
  rcases hm : memGet st.memory k now with ⟨mv, mem1⟩
  rw [hm] at h
  dsimp only at h
  subst h
  rw [hd]

/-- `CacheManager.get` result when both tiers miss. -/
theorem cmGet_fst_of_miss_diskmiss {V : Type} (st : CMState V) (k : String)
    (now : ℚ) (d : DiskCache V) (h : (memGet st.memory k now).1 = none)
    (hd : st.disk = some d) (h2 : (diskGet d k now).1 = none) :
    (cmGet st k now).1 = .ok none := by
  unfold cmGet
  rcases hm : memGet st.memory k now with ⟨mv, mem1⟩
  rw [hm] at h
  dsimp only at h
  subst h
  rw [hd]
  dsimp only
  rcases hg : diskGet d k now with ⟨dv, d1⟩
  rw [hg] at h2
  dsimp only at h2
  subst h2
  rfl

/-- C6 amended, positive part: when the `get` immediately follows the
`set` (no intervening operation), the value is returned exactly for
`t ≤ t_set + T` — note the boundary `t = t_set + T` still *returns* `v`
because expiry is the strict test `time.time() > expires_at` — and
nothing is returned for `t > t_set + T` (lazy expiry in both tiers). -/
theorem C6_ttl_get_after_set {V : Type} (st : CMState V) (k : String) (v : V)
    (T t0 t : ℚ) (hmem : 1 ≤ st.memory.maxSize) :
    (cmGet (cmSet st k v (some T) [] t0).2 k t).1 =
      .ok (if t ≤ t0 + T then some v else none) := by
  obtain ⟨mem1, hset, hlook, hmax⟩ := memSet_cache st.memory k v (some T) t0 hmem
  rw [cmSet_state st k v (some T) t0 mem1 hset]
  by_cases ht : t ≤ t0 + T
  · have hexp : CEntry.isExpired
        { value := v, createdAt := t0, expiresAt := (some T).map (t0 + ·),
          lastAccessedAt := t0, accessCount := 0 } t = false := by
      simp [CEntry.isExpired]
      exact ht
    rw [cmGet_fst_of_mem_hit _ k t v (memGet_fst_live mem1 k t _ hlook hexp)]
    simp [ht]
  · have hlt : t0 + T < t := not_le.mp ht
    have hexp : CEntry.isExpired
        { value := v, createdAt := t0, expiresAt := (some T).map (t0 + ·),
          lastAccessedAt := t0, accessCount := 0 } t = true := by
      simp [CEntry.isExpired]
      exact hlt
    have hmemmiss := memGet_fst_expired mem1 k t _ hlook hexp
    cases hd : st.disk with
    | none =>
      rw [cmGet_fst_of_miss_none _ k t hmemmiss (by simp [hd])]
      simp [ht]
    | some d =>
      have hdexp : DiskEntry.isExpired
          { value := v, createdAt := t0, lastAccessedAt := t0,
            accessCount := 0, expiresAt := (some T).map (t0 + ·) } t = true := by
        simp [DiskEntry.isExpired]
        exact hlt
      rw [cmGet_fst_of_miss_diskmiss _ k t (diskSet d k v (some T) t0) hmemmiss
        (by simp [hd])
        (diskGet_fst_expired (diskSet d k v (some T) t0) k t _
          (diskSet_lookup d k v (some T) t0) hdexp)]
      simp [ht]

/-- Witness for the amended TTL statement at a concrete state. -/
theorem C6_witness :
    1 ≤ (CMState.init String 5 5 true).memory.maxSize ∧
    (cmGet (cmSet (CMState.init String 5 5 true) "k" "v" (some 10) [] 0).2 "k" 7).1 =
      .ok (if (7 : ℚ) ≤ 0 + 10 then some "v" else none) :=
  ⟨by decide,
   C6_ttl_get_after_set (CMState.init String 5 5 true) "k" "v" 10 0 7 (by decide)⟩

/-- C6 counterexample: `set("k", "v", ttl=10)` at time 0 into a
capacity-1 memory tier; at time 1 a second `set` evicts `"k"` from
memory; at time 2 a `get` promotes `"k"` back from disk — but the
promotion calls `memory_cache.set(key, value)` with *no TTL*.  A `get`
at time 20 ≥ 0 + 10 then hits the unexpiring memory copy and still
returns `"v"`, where the claim demands that nothing be returned. -/
theorem C6_counterexample :
    (cmGet cmTrace2 "k" 2).1 = .ok (some "v") ∧
    ((0 : ℚ) + 10 ≤ 20) ∧
    (cmGet cmTrace3 "k" 20).1 = .ok (some "v") ∧
    ¬ (cmGet cmTrace3 "k" 20).1 = .ok none := by
  have h1 : cmTrace1 =
      ⟨⟨[("k", ⟨"v", 0, some 10, 0, 0⟩)], 1, 0, 0, 0, 0⟩,
       some ⟨[("k", ⟨"v", 0, 0, 0, some 10⟩)], 10, 0, 0, 0, 0⟩, [], []⟩ := by
    norm_num [cmTrace1, cmTrace0, CMState.init, MemoryCache.init, DiskCache.init,
      cmSet, memSet, diskSet, hasKey, lookupKey, dropKey, diskEvictLru, diskLruKey]
  have h2 : cmTrace2 =
      ⟨⟨[("k2", ⟨"w", 1, some 11, 1, 0⟩)], 1, 0, 0, 1, 0⟩,
       some ⟨[("k", ⟨"v", 0, 0, 0, some 10⟩), ("k2", ⟨"w", 1, 1, 0, some 11⟩)],
             10, 0, 0, 0, 0⟩, [], []⟩ := by
    unfold cmTrace2
    rw [h1]
    norm_num [cmSet, memSet, diskSet, hasKey, lookupKey, dropKey,
      diskEvictLru, diskLruKey,
      (show ¬ (("k" : String) = "k2") by decide),
      (show ¬ (("k2" : String) = "k") by decide)]
  have h3 : cmTrace3 =
      ⟨⟨[("k", ⟨"v", 2, none, 2, 0⟩)], 1, 0, 1, 2, 0⟩,
       some ⟨[("k2", ⟨"w", 1, 1, 0, some 11⟩), ("k", ⟨"v", 0, 2, 1, some 10⟩)],
             10, 1, 0, 0, 0⟩, [], []⟩ := by
    unfold cmTrace3
    rw [h2]
    norm_num [cmGet, memGet, memSet, diskGet, hasKey, lookupKey, dropKey,
      CEntry.isExpired, DiskEntry.isExpired,
      (show ¬ (("k" : String) = "k2") by decide),
      (show ¬ (("k2" : String) = "k") by decide)]
  refine ⟨?_, by norm_num, ?_, ?_⟩
  · rw [h2]
    norm_num [cmGet, memGet, memSet, diskGet, hasKey, lookupKey, dropKey,
      CEntry.isExpired, DiskEntry.isExpired,
      (show ¬ (("k" : String) = "k2") by decide),
      (show ¬ (("k2" : String) = "k") by decide)]
  · rw [h3]
    norm_num [cmGet, memGet, lookupKey, dropKey, CEntry.isExpired]
  · rw [h3]
    norm_num [cmGet, memGet, lookupKey, dropKey, CEntry.isExpired]
    decide

/-! ## C9 -/

theorem dropKey_length_le {β : Type} (k : String) (l : List (String × β)) :
    (dropKey k l).length ≤ l.length :=
  List.length_filter_le _ _

theorem dropKey_length_of_hasKey {β : Type} (k : String) :
    ∀ l : List (String × β), hasKey k l = true →
      (dropKey k l).length + 1 ≤ l.length := by
  intro l
  induction l with
  | nil => intro h; simp [hasKey, lookupKey] at h
  | cons hd tl ih =>
    intro h
    by_cases hk : hd.1 = k
    · have hdrop : dropKey k (hd :: tl) = dropKey k tl := by simp [dropKey, hk]
      rw [hdrop]
      have := dropKey_length_le k tl
      simp only [List.length_cons]
      omega
    · have hdrop : dropKey k (hd :: tl) = hd :: dropKey k tl := by simp [dropKey, hk]
      have htl : hasKey k tl = true := by
        simp [hasKey, lookupKey, hk] at h
        simpa [hasKey] using h
      rw [hdrop]
      simp only [List.length_cons]
      have := ih htl
      omega

theorem mem_keys_of_lookupKey {β : Type} (k : String) (e : β) :
    ∀ l : List (String × β), lookupKey k l = some e → k ∈ l.map Prod.fst := by
  intro l
  induction l with
  | nil => intro h; simp [lookupKey] at h
  | cons hd tl ih =>
    intro h
    by_cases hk : hd.1 = k
    · simp [hk]
    · simp [lookupKey, hk] at h
      simp [ih h]

/-- `MemoryCache.get` never grows the cache and never changes the
capacity. -/
theorem memGet_inv {V : Type} (m : MemoryCache V) (k : String) (now : ℚ) :
    (memGet m k now).2.maxSize = m.maxSize ∧
    (memGet m k now).2.cache.length ≤ m.cache.length := by
  unfold memGet
  cases hl : lookupKey k m.cache with
  | none => simp
  | some e =>
    by_cases he : e.isExpired now = true
    · simp [he, dropKey_length_le]
    · have h1 : hasKey k m.cache = true := by simp [hasKey, hl]
      have h2 := dropKey_length_of_hasKey k m.cache h1
      simp [he]
      omega

/-- A successful `MemoryCache.set` keeps the capacity and respects the
bound. -/
theorem memSet_inv {V : Type} (m m1 : MemoryCache V) (k : String) (v : V)
    (ttl : Option ℚ) (now : ℚ) (hset : memSet m k v ttl now = some m1)
    (hb : m.cache.length ≤ m.maxSize) :
    m1.maxSize = m.maxSize ∧ m1.cache.length ≤ m.maxSize := by
  unfold memSet at hset
  dsimp only at hset
  by_cases hc : m.maxSize ≤ m.cache.length ∧ ¬ hasKey k m.cache = true
  · rw [if_pos hc] at hset
    cases hm : m.cache with
    | nil =>
      rw [hm] at hset
      simp at hset
    | cons hd rest =>
      rw [hm] at hset
      simp only [Option.map, Option.some.injEq] at hset
      rw [← hset]
      refine ⟨rfl, ?_⟩
      simp only [List.length_append, List.length_cons, List.length_nil]
      have h1 := dropKey_length_le k rest
      have h2 : m.cache.length = rest.length + 1 := by rw [hm]; simp
      omega
  · rw [if_neg hc] at hset
    simp only [Option.map, Option.some.injEq] at hset
    rw [← hset]
    refine ⟨rfl, ?_⟩
    simp only [List.length_append, List.length_cons, List.length_nil]
    by_cases hk : hasKey k m.cache = true
    · have := dropKey_length_of_hasKey k m.cache hk
      omega
    · have hlt : ¬ m.maxSize ≤ m.cache.length := by
        intro hle
        exact hc ⟨hle, hk⟩
      have := dropKey_length_le k m.cache
      omega

theorem lookupKey_cons {β : Type} (k : String) (hd : String × β)
    (t : List (String × β)) :
    lookupKey k (hd :: t) = if hd.1 = k then some hd.2 else lookupKey k t := by
  rcases hd with ⟨a, b⟩
  rfl

theorem diskLruKey_cons {V : Type} (hd : String × DiskEntry V)
    (t : List (String × DiskEntry V)) :
    diskLruKey (hd :: t) =
      match diskLruKey t with
      | none => some hd.1
      | some k' =>
          match lookupKey k' t with
          | none => some hd.1
          | some e' =>
              if e'.lastAccessedAt < hd.2.lastAccessedAt then some k'
              else some hd.1 := by
  rcases hd with ⟨a, b⟩
  rfl

/-- `DiskCache._evict_lru` on a nonempty cache with distinct keys
removes an entry whose `last_accessed_at` is minimal. -/
theorem diskLruKey_spec {V : Type} :
    ∀ l : List (String × DiskEntry V), l ≠ [] → (l.map Prod.fst).Nodup →
      ∃ k0 e0, diskLruKey l = some k0 ∧ lookupKey k0 l = some e0 ∧
        ∀ p ∈ l, e0.lastAccessedAt ≤ p.2.lastAccessedAt := by
  intro l
  induction l with
  | nil => intro h; exact absurd rfl h
  | cons hd tl ih =>
    intro _ hnd
    cases tl with
    | nil =>
      refine ⟨hd.1, hd.2, ?_, ?_, ?_⟩
      · simp [diskLruKey]
      · simp [lookupKey]
      · intro p hp
        simp at hp
        rw [hp]
    | cons t0 ts =>
      have hndtl : ((t0 :: ts).map Prod.fst).Nodup := by
        rw [List.map_cons] at hnd
        exact hnd.of_cons
      have hhd : hd.1 ∉ (t0 :: ts).map Prod.fst := by
        rw [List.map_cons] at hnd
        exact (List.nodup_cons.mp hnd).1
      obtain ⟨k', e', hk', hl', hmin⟩ := ih (by simp) hndtl
      by_cases hlt : e'.lastAccessedAt < hd.2.lastAccessedAt
      · refine ⟨k', e', ?_, ?_, ?_⟩
        · rw [diskLruKey_cons, hk']
          dsimp only
          rw [hl']
          dsimp only
          rw [if_pos hlt]
        · have hne : ¬ hd.1 = k' := by
            intro heq
            exact hhd (heq ▸ mem_keys_of_lookupKey k' e' (t0 :: ts) hl')
          rw [lookupKey_cons, if_neg hne, hl']
        · intro p hp
          rcases List.mem_cons.mp hp with hp1 | hp2
          · rw [hp1]
            exact le_of_lt hlt
          · exact hmin p hp2
      · refine ⟨hd.1, hd.2, ?_, ?_, ?_⟩
        · rw [diskLruKey_cons, hk']
          dsimp only
          rw [hl']
          dsimp only
          rw [if_neg hlt]
        · rw [lookupKey_cons, if_pos rfl]
        · intro p hp
          rcases List.mem_cons.mp hp with hp1 | hp2
          · rw [hp1]
          · exact le_trans (not_lt.mp hlt) (hmin p hp2)

/-- `_evict_lru` always selects a present key (no distinctness
needed). -/
theorem diskLruKey_mem {V : Type} :
    ∀ l : List (String × DiskEntry V), l ≠ [] →
      ∃ k0, diskLruKey l = some k0 ∧ hasKey k0 l = true := by
  intro l
  induction l with
  | nil => intro h; exact absurd rfl h
  | cons hd tl ih =>
    intro _
    cases tl with
    | nil =>
      refine ⟨hd.1, by simp [diskLruKey], ?_⟩
      simp [hasKey, lookupKey_cons]
    | cons t0 ts =>
      obtain ⟨k0, hk0, hmem⟩ := ih (by simp)
      cases hl : lookupKey k0 (t0 :: ts) with
      | none =>
        exfalso
        simp [hasKey, hl] at hmem
      | some e' =>
        by_cases hlt : e'.lastAccessedAt < hd.2.lastAccessedAt
        · refine ⟨k0, ?_, ?_⟩
          · rw [diskLruKey_cons, hk0]
            dsimp only
            rw [hl]
            dsimp only
            rw [if_pos hlt]
          · rw [hasKey, lookupKey_cons]
            by_cases hh : hd.1 = k0 <;> simp [hh, hl]
        · refine ⟨hd.1, ?_, ?_⟩
          · rw [diskLruKey_cons, hk0]
            dsimp only
            rw [hl]
            dsimp only
            rw [if_neg hlt]
          · simp [hasKey, lookupKey_cons]

/-- `DiskCache._evict_lru` on a nonempty cache strictly shrinks it. -/
theorem diskEvictLru_len {V : Type} (d : DiskCache V) (hne : d.entries ≠ []) :
    (diskEvictLru d).entries.length + 1 ≤ d.entries.length ∧
    (diskEvictLru d).maxSize = d.maxSize := by
  obtain ⟨k0, hk0, hmem⟩ := diskLruKey_mem d.entries hne
  unfold diskEvictLru
  rw [hk0]
  exact ⟨dropKey_length_of_hasKey k0 d.entries hmem, rfl⟩

/-- `DiskCache.set` keeps the capacity and, for positive capacities,
respects the bound. -/
theorem diskSet_inv {V : Type} (d : DiskCache V) (k : String) (v : V)
    (ttl : Option ℚ) (now : ℚ) (h1 : 1 ≤ d.maxSize)
    (hb : d.entries.length ≤ d.maxSize) :
    (diskSet d k v ttl now).maxSize = d.maxSize ∧
    (diskSet d k v ttl now).entries.length ≤ d.maxSize := by
  unfold diskSet
  dsimp only
  by_cases hc : d.maxSize ≤ d.entries.length ∧ ¬ hasKey k d.entries = true
  · rw [if_pos hc]
    have hne : d.entries ≠ [] := by
      intro h0
      have := hc.1
      rw [h0] at this
      simp at this
      omega
    obtain ⟨hlen, hms⟩ := diskEvictLru_len d hne
    refine ⟨by simp [hms], ?_⟩
    simp only [List.length_append, List.length_cons, List.length_nil]
    have := dropKey_length_le k (diskEvictLru d).entries
    omega
  · rw [if_neg hc]
    refine ⟨rfl, ?_⟩
    simp only [List.length_append, List.length_cons, List.length_nil]
    by_cases hk : hasKey k d.entries = true
    · have := dropKey_length_of_hasKey k d.entries hk
      omega
    · have hlt : ¬ d.maxSize ≤ d.entries.length := by
        intro hle
        exact hc ⟨hle, hk⟩
      have := dropKey_length_le k d.entries
      omega

/-- `MemoryCache.delete` shrinks or preserves. -/
theorem memDelete_inv {V : Type} (m : MemoryCache V) (k : String) :
    (memDelete m k).2.maxSize = m.maxSize ∧
    (memDelete m k).2.cache.length ≤ m.cache.length := by
  unfold memDelete
  split
  · exact ⟨rfl, dropKey_length_le _ _⟩
  · exact ⟨rfl, le_refl _⟩

/-- `DiskCache.delete` shrinks or preserves. -/
theorem diskDelete_inv {V : Type} (d : DiskCache V) (k : String) :
    (diskDelete d k).2.maxSize = d.maxSize ∧
    (diskDelete d k).2.entries.length ≤ d.entries.length :=
  ⟨rfl, dropKey_length_le _ _⟩

/-- The tag bookkeeping of the Cache Manager never touches the tiers. -/
theorem cmAddTags_tiers {V : Type} (st : CMState V) (k : String)
    (tags : List String) :
    (cmAddTags st k tags).memory = st.memory ∧
    (cmAddTags st k tags).disk = st.disk := by
  have h : ∀ (ts : List String) (s : CMState V),
      ((ts.foldl (fun s t =>
        { s with tagToKeys :=
            upsertKey t (addToSet k ((lookupKey t s.tagToKeys).getD [])) s.tagToKeys }) s)).memory
        = s.memory ∧
      ((ts.foldl (fun s t =>
        { s with tagToKeys :=
            upsertKey t (addToSet k ((lookupKey t s.tagToKeys).getD [])) s.tagToKeys }) s)).disk
        = s.disk := by
    intro ts
    induction ts with
    | nil => intro s; exact ⟨rfl, rfl⟩
    | cons t rest ih =>
      intro s
      simp only [List.foldl_cons]
      exact ih _
  unfold cmAddTags
  dsimp only
  exact h tags _

/-- `_remove_key` never touches the tiers. -/
theorem cmRemoveKeyTags_tiers {V : Type} (st : CMState V) (k : String) :
    (cmRemoveKeyTags st k).memory = st.memory ∧
    (cmRemoveKeyTags st k).disk = st.disk := by
  unfold cmRemoveKeyTags
  cases lookupKey k st.invalidationTags with
  | none => exact ⟨rfl, rfl⟩
  | some tags =>
    dsimp only
    suffices h : ∀ (ts : List String) (s : CMState V),
        ((ts.foldl (fun s t =>
          match lookupKey t s.tagToKeys with
          | none => s
          | some ks =>
              if k ∈ ks then
                let ks' := ks.filter (· ≠ k)
                if ks' = [] then { s with tagToKeys := dropKey t s.tagToKeys }
                else { s with tagToKeys := upsertKey t ks' s.tagToKeys }
              else s) s)).memory = s.memory ∧
        ((ts.foldl (fun s t =>
          match lookupKey t s.tagToKeys with
          | none => s
          | some ks =>
              if k ∈ ks then
                let ks' := ks.filter (· ≠ k)
                if ks' = [] then { s with tagToKeys := dropKey t s.tagToKeys }
                else { s with tagToKeys := upsertKey t ks' s.tagToKeys }
              else s) s)).disk = s.disk by
      obtain ⟨h1, h2⟩ := h tags st
      exact ⟨h1, h2⟩
    intro ts
    induction ts with
    | nil => intro s; exact ⟨rfl, rfl⟩
    | cons t rest ih =>
      intro s
      simp only [List.foldl_cons]
      obtain ⟨ih1, ih2⟩ := ih (match lookupKey t s.tagToKeys with
        | none => s
        | some ks =>
            if k ∈ ks then
              let ks' := ks.filter (· ≠ k)
              if ks' = [] then { s with tagToKeys := dropKey t s.tagToKeys }
              else { s with tagToKeys := upsertKey t ks' s.tagToKeys }
            else s)
      refine ⟨ih1.trans ?_, ih2.trans ?_⟩ <;>
      · cases lookupKey t s.tagToKeys with
        | none => rfl
        | some ks =>
          dsimp only
          by_cases hk : k ∈ ks
          · rw [if_pos hk]
            by_cases hks : ks.filter (· ≠ k) = []
            · rw [if_pos hks]
            · rw [if_neg hks]
          · rw [if_neg hk]

/-- `DiskCache.get` never grows the cache and keeps the capacity. -/
theorem diskGet_inv {V : Type} (d : DiskCache V) (k : String) (now : ℚ) :
    (diskGet d k now).2.maxSize = d.maxSize ∧
    (diskGet d k now).2.entries.length ≤ d.entries.length := by
  unfold diskGet
  cases hl : lookupKey k d.entries with
  | none => simp
  | some e =>
    by_cases he : e.isExpired now = true
    · simp [he, dropKey_length_le]
    · have h1 := dropKey_length_of_hasKey k d.entries (by simp [hasKey, hl])
      simp [he]
      omega

/-- `CacheManager.get` preserves the memory bound (including the
promotion write). -/
theorem cmGet_mem_inv {V : Type} (st : CMState V) (k : String) (now : ℚ)
    (h : st.memory.cache.length ≤ st.memory.maxSize) :
    (cmGet st k now).2.memory.cache.length ≤ (cmGet st k now).2.memory.maxSize := by
  unfold cmGet
  rcases hm : memGet st.memory k now with ⟨mv, mem1⟩
  have hmem1 : mem1.maxSize = st.memory.maxSize ∧
      mem1.cache.length ≤ st.memory.cache.length := by
    have := memGet_inv st.memory k now
    rw [hm] at this
    exact this
  have hmem1b : mem1.cache.length ≤ mem1.maxSize := by
    rw [hmem1.1]
    exact le_trans hmem1.2 h
  dsimp only
  cases mv with
  | some v => simpa using hmem1b
  | none =>
    cases hd : st.disk with
    | none => simpa using hmem1b
    | some d =>
      dsimp only
      rcases hg : diskGet d k now with ⟨dv, d1⟩
      dsimp only
      cases dv with
      | none => simpa using hmem1b
      | some v =>
        dsimp only
        cases hms : memSet mem1 k v none now with
        | none => simpa using hmem1b
        | some mem2 =>
          have := memSet_inv mem1 mem2 k v none now hms hmem1b
          simp only
          rw [this.1]
          exact this.2

/-- `CacheManager.get` preserves the disk invariant. -/
theorem cmGet_disk_inv {V : Type} (st : CMState V) (k : String) (now : ℚ)
    (h : diskInv st) : diskInv (cmGet st k now).2 := by
  unfold cmGet
  rcases hm : memGet st.memory k now with ⟨mv, mem1⟩
  dsimp only
  cases mv with
  | some v => simpa [diskInv] using h
  | none =>
    cases hd : st.disk with
    | none => simpa [diskInv, hd] using h
    | some d =>
      have hdisk : 1 ≤ d.maxSize ∧ d.entries.length ≤ d.maxSize := by
        unfold diskInv at h
        rw [hd] at h
        exact h
      dsimp only
      rcases hg : diskGet d k now with ⟨dv, d1⟩
      dsimp only
      have hd1 : d1.maxSize = d.maxSize ∧ d1.entries.length ≤ d.entries.length := by
        have := diskGet_inv d k now
        rw [hg] at this
        exact this
      have hd1inv : 1 ≤ d1.maxSize ∧ d1.entries.length ≤ d1.maxSize := by
        rw [hd1.1]
        exact ⟨hdisk.1, le_trans hd1.2 hdisk.2⟩
      cases dv with
      | none => simpa [diskInv] using hd1inv
      | some v =>
        dsimp only
        cases hms : memSet mem1 k v none now with
        | none => simpa [diskInv] using hd1inv
        | some mem2 => simpa [diskInv] using hd1inv

/-- `CacheManager.set` preserves the memory bound. -/
theorem cmSet_mem_inv {V : Type} (st : CMState V) (k : String) (v : V)
    (ttl : Option ℚ) (tags : List String) (now : ℚ)
    (h : st.memory.cache.length ≤ st.memory.maxSize) :
    (cmSet st k v ttl tags now).2.memory.cache.length ≤
      (cmSet st k v ttl tags now).2.memory.maxSize := by
  unfold cmSet
  cases hms : memSet st.memory k v ttl now with
  | none => simpa using h
  | some mem1 =>
    have hinv := memSet_inv st.memory mem1 k v ttl now hms h
    have hb : mem1.cache.length ≤ mem1.maxSize := by
      rw [hinv.1]
      exact hinv.2
    dsimp only
    by_cases ht : tags = []
    · rw [if_pos ht]
      simpa using hb
    · rw [if_neg ht, (cmAddTags_tiers _ k tags).1]
      simpa using hb

/-- `CacheManager.set` preserves the disk invariant. -/
theorem cmSet_disk_inv {V : Type} (st : CMState V) (k : String) (v : V)
    (ttl : Option ℚ) (tags : List String) (now : ℚ)
    (h : diskInv st) : diskInv (cmSet st k v ttl tags now).2 := by
  unfold cmSet
  cases hms : memSet st.memory k v ttl now with
  | none => simpa [diskInv] using h
  | some mem1 =>
    dsimp only
    by_cases ht : tags = []
    · rw [if_pos ht]
      unfold diskInv at h ⊢
      cases hd : st.disk with
      | none => simp
      | some d =>
        rw [hd] at h
        dsimp only [Option.map]
        have hds := diskSet_inv d k v ttl now h.1 h.2
        rw [hds.1]
        exact ⟨h.1, hds.2⟩
    · rw [if_neg ht]
      unfold diskInv
      rw [(cmAddTags_tiers _ k tags).2]
      unfold diskInv at h
      cases hd : st.disk with
      | none => simp
      | some d =>
        rw [hd] at h
        dsimp only [Option.map]
        have hds := diskSet_inv d k v ttl now h.1 h.2
        rw [hds.1]
        exact ⟨h.1, hds.2⟩

/-- `CacheManager.delete` preserves the memory bound. -/
theorem cmDelete_mem_inv {V : Type} (st : CMState V) (k : String)
    (h : st.memory.cache.length ≤ st.memory.maxSize) :
    (cmDelete st k).2.memory.cache.length ≤ (cmDelete st k).2.memory.maxSize := by
  unfold cmDelete
  dsimp only
  rw [(cmRemoveKeyTags_tiers _ k).1]
  dsimp only
  have hmem := memDelete_inv st.memory k
  rw [hmem.1]
  exact le_trans hmem.2 h

/-- `CacheManager.delete` preserves the disk invariant. -/
theorem cmDelete_disk_inv {V : Type} (st : CMState V) (k : String)
    (h : diskInv st) : diskInv (cmDelete st k).2 := by
  unfold cmDelete
  dsimp only
  unfold diskInv
  rw [(cmRemoveKeyTags_tiers _ k).2]
  dsimp only
  unfold diskInv at h
  cases hd : st.disk with
  | none => simp
  | some d =>
    rw [hd] at h
    dsimp only
    have hdd := diskDelete_inv d k
    rw [hdd.1]
    exact ⟨h.1, le_trans hdd.2 h.2⟩

/-- `CacheManager.clear` trivially restores both bounds. -/
theorem cmClear_inv {V : Type} (st : CMState V) :
    (cmClear st).memory.cache.length ≤ (cmClear st).memory.maxSize ∧
    diskInv (cmClear st) → True := fun _ => trivial

/-- `invalidate_tag` preserves the memory bound. -/
theorem cmInvalidateTag_mem_inv {V : Type} (st : CMState V) (tag : String)
    (h : st.memory.cache.length ≤ st.memory.maxSize) :
    (cmInvalidateTag st tag).2.memory.cache.length ≤
      (cmInvalidateTag st tag).2.memory.maxSize := by
  unfold cmInvalidateTag
  cases hl : lookupKey tag st.tagToKeys with
  | none => simpa using h
  | some ks =>
    dsimp only
    have hfold : ∀ (l : List String) (acc : Nat × CMState V),
        acc.2.memory.cache.length ≤ acc.2.memory.maxSize →
        ((l.foldl (fun (acc : Nat × CMState V) k =>
          let (r, s1) := cmDelete acc.2 k
          (if r then acc.1 + 1 else acc.1, s1)) acc)).2.memory.cache.length ≤
        ((l.foldl (fun (acc : Nat × CMState V) k =>
          let (r, s1) := cmDelete acc.2 k
          (if r then acc.1 + 1 else acc.1, s1)) acc)).2.memory.maxSize := by
      intro l
      induction l with
      | nil => intro acc hacc; exact hacc
      | cons k0 rest ih =>
        intro acc hacc
        simp only [List.foldl_cons]
        apply ih
        rcases hdel : cmDelete acc.2 k0 with ⟨r, s1⟩
        have := cmDelete_mem_inv acc.2 k0 hacc
        rw [hdel] at this
        simpa using this
    rcases hrun : ks.foldl (fun (acc : Nat × CMState V) k =>
        let (r, s1) := cmDelete acc.2 k
        (if r then acc.1 + 1 else acc.1, s1)) (0, st) with ⟨cnt, st1⟩
    have := hfold ks (0, st) h
    rw [hrun] at this
    simpa using this

/-- `invalidate_tag` preserves the disk invariant. -/
theorem cmInvalidateTag_disk_inv {V : Type} (st : CMState V) (tag : String)
    (h : diskInv st) : diskInv (cmInvalidateTag st tag).2 := by
  unfold cmInvalidateTag
  cases hl : lookupKey tag st.tagToKeys with
  | none => simpa using h
  | some ks =>
    dsimp only
    have hfold : ∀ (l : List String) (acc : Nat × CMState V),
        diskInv acc.2 →
        diskInv ((l.foldl (fun (acc : Nat × CMState V) k =>
          let (r, s1) := cmDelete acc.2 k
          (if r then acc.1 + 1 else acc.1, s1)) acc)).2 := by
      intro l
      induction l with
      | nil => intro acc hacc; exact hacc
      | cons k0 rest ih =>
        intro acc hacc
        simp only [List.foldl_cons]
        apply ih
        rcases hdel : cmDelete acc.2 k0 with ⟨r, s1⟩
        have := cmDelete_disk_inv acc.2 k0 hacc
        rw [hdel] at this
        simpa using this
    rcases hrun : ks.foldl (fun (acc : Nat × CMState V) k =>
        let (r, s1) := cmDelete acc.2 k
        (if r then acc.1 + 1 else acc.1, s1)) (0, st) with ⟨cnt, st1⟩
    have := hfold ks (0, st) h
    rw [hrun] at this
    unfold diskInv at this ⊢
    simpa using this

/-- Each public cache operation preserves the memory bound. -/
theorem cmStep_mem_inv {V : Type} (st : CMState V) (op : ℚ × CacheOp V)
    (h : st.memory.cache.length ≤ st.memory.maxSize) :
    (cmStep st op).memory.cache.length ≤ (cmStep st op).memory.maxSize := by
  rcases op with ⟨t, op⟩
  cases op with
  | get k => exact cmGet_mem_inv st k t h
  | set k v ttl tags => exact cmSet_mem_inv st k v ttl tags t h
  | del k => exact cmDelete_mem_inv st k h
  | clear => simp [cmStep, cmClear, memClear]
  | invalidateTag tag => exact cmInvalidateTag_mem_inv st tag h

/-- Each public cache operation preserves the disk invariant. -/
theorem cmStep_disk_inv {V : Type} (st : CMState V) (op : ℚ × CacheOp V)
    (h : diskInv st) : diskInv (cmStep st op) := by
  rcases op with ⟨t, op⟩
  cases op with
  | get k => exact cmGet_disk_inv st k t h
  | set k v ttl tags => exact cmSet_disk_inv st k v ttl tags t h
  | del k => exact cmDelete_disk_inv st k h
  | clear =>
    unfold diskInv at h ⊢
    simp only [cmStep, cmClear]
    cases hd : st.disk with
    | none => simp
    | some d =>
      rw [hd] at h
      simpa [diskClear] using h.1
  | invalidateTag tag => exact cmInvalidateTag_disk_inv st tag h

/-- The memory bound is preserved along any operation sequence. -/
theorem cmRun_mem_inv {V : Type} (ops : List (ℚ × CacheOp V)) :
    ∀ st : CMState V, st.memory.cache.length ≤ st.memory.maxSize →
      (cmRun st ops).memory.cache.length ≤ (cmRun st ops).memory.maxSize := by
  induction ops with
  | nil => intro st h; exact h
  | cons op tl ih =>
    intro st h
    have h1 := cmStep_mem_inv st op h
    have h2 := ih (cmStep st op) h1
    exact h2

/-- The disk invariant is preserved along any operation sequence. -/
theorem cmRun_disk_inv {V : Type} (ops : List (ℚ × CacheOp V)) :
    ∀ st : CMState V, diskInv st → diskInv (cmRun st ops) := by
  induction ops with
  | nil => intro st h; exact h
  | cons op tl ih =>
    intro st h
    have h1 := cmStep_disk_inv st op h
    have h2 := ih (cmStep st op) h1
    exact h2

/-- `MemoryCache.set` on a full tier with a new key pops the head of
the `OrderedDict`; under the access-order invariant that head is a
least-recently-accessed entry. -/
theorem memSet_evict_head {V : Type} (m : MemoryCache V) (k : String) (v : V)
    (ttl : Option ℚ) (now : ℚ) (hd : String × CEntry V)
    (rest : List (String × CEntry V))
    (hc : m.cache = hd :: rest) (hfull : m.maxSize ≤ m.cache.length)
    (hnew : hasKey k m.cache = false) (hord : memAccessOrdered m) :
    (∀ p ∈ m.cache, hd.2.lastAccessedAt ≤ p.2.lastAccessedAt) ∧
    memSet m k v ttl now = some (evictInsertMem m k v ttl now rest) := by
  constructor
  · intro p hp
    unfold memAccessOrdered at hord
    rw [hc] at hord hp
    rcases List.mem_cons.mp hp with h | h
    · rw [h]
    · exact (List.pairwise_cons.mp hord).1 p h
  · have hcond : m.maxSize ≤ m.cache.length ∧ ¬ hasKey k m.cache = true :=
      ⟨hfull, by simp [hnew]⟩
    unfold memSet
    dsimp only
    rw [if_pos hcond, hc]
    rfl

/-- C9.  The per-tier LRU bound of §6 fails for the disk tier at
capacity 0 (the eviction result is ignored, see `C9_counterexample`);
the amended claim holds: (a) the memory bound is an invariant of every
operation sequence; (b) with positive disk capacity the disk bound is
too; (c) on insert into a full disk tier with distinct keys, eviction
removes an entry of minimal `last_accessed_at`; (d) on insert of a new
key into a full memory tier, the head of the access order — a
least-recently-accessed entry — is evicted. -/
theorem C9_lru_bounds_and_eviction {V : Type} :
    (∀ (st : CMState V) (ops : List (ℚ × CacheOp V)),
        st.memory.cache.length ≤ st.memory.maxSize →
        (cmRun st ops).memory.cache.length ≤ (cmRun st ops).memory.maxSize) ∧
    (∀ (st : CMState V) (ops : List (ℚ × CacheOp V)),
        diskInv st → diskInv (cmRun st ops)) ∧
    (∀ d : DiskCache V, d.entries ≠ [] → (d.entries.map Prod.fst).Nodup →
        ∃ k0 e0, lookupKey k0 d.entries = some e0 ∧
          (∀ p ∈ d.entries, e0.lastAccessedAt ≤ p.2.lastAccessedAt) ∧
          (diskEvictLru d).entries = dropKey k0 d.entries) ∧
    (∀ (m : MemoryCache V) (k : String) (v : V) (ttl : Option ℚ) (now : ℚ)
        (hd : String × CEntry V) (rest : List (String × CEntry V)),
        m.cache = hd :: rest → m.maxSize ≤ m.cache.length →
        hasKey k m.cache = false → memAccessOrdered m →
        (∀ p ∈ m.cache, hd.2.lastAccessedAt ≤ p.2.lastAccessedAt) ∧
        memSet m k v ttl now = some (evictInsertMem m k v ttl now rest)) := by
  refine ⟨?_, ?_, ?_, ?_⟩
  · intro st ops h
    exact cmRun_mem_inv ops st h
  · intro st ops h
    exact cmRun_disk_inv ops st h
  · intro d hne hnd
    obtain ⟨k0, e0, hk0, hl0, hmin⟩ := diskLruKey_spec d.entries hne hnd
    refine ⟨k0, e0, hl0, hmin, ?_⟩
    unfold diskEvictLru
    rw [hk0]
  · intro m k v ttl now hd rest hc hfull hnew hord
    exact memSet_evict_head m k v ttl now hd rest hc hfull hnew hord

/-- With `disk_cache_size = 0`, a single `CacheManager.set` leaves one
entry in the disk tier: `DiskCache.set` ignores the failure of
`_evict_lru` and writes the files anyway, so the tier exceeds its
configured capacity, refuting the unamended bound. -/
theorem C9_counterexample :
    (CMState.init String 5 0 true).disk = some (DiskCache.init String 0) ∧
    (DiskCache.init String 0).maxSize = 0 ∧
    diskSizeOf (cmSet (CMState.init String 5 0 true) "k" "v" none [] 0).2 = 1 ∧
    ¬ diskSizeOf (cmSet (CMState.init String 5 0 true) "k" "v" none [] 0).2 ≤
        (DiskCache.init String 0).maxSize := by
  refine ⟨rfl, rfl, by decide, by decide⟩

/-- Concrete run of the LRU-bound theorem: a capacity-2/2 manager over
a seven-operation trace, the two-entry disk tier `diskEx`, and the full
memory tier `memEx` receiving a new key. -/
theorem C9_witness :
    ((CMState.init String 2 2 true).memory.cache.length ≤
        (CMState.init String 2 2 true).memory.maxSize ∧
      diskInv (CMState.init String 2 2 true) ∧
      diskEx.entries ≠ [] ∧ (diskEx.entries.map Prod.fst).Nodup ∧
      memEx.cache = ("a", ⟨"x", 0, none, 1, 0⟩) ::
        [("b", ⟨"y", 0, none, 2, 0⟩)] ∧
      memEx.maxSize ≤ memEx.cache.length ∧
      hasKey "c" memEx.cache = false ∧ memAccessOrdered memEx) ∧
    ((cmRun (CMState.init String 2 2 true) lruOps).memory.cache.length ≤
        (cmRun (CMState.init String 2 2 true) lruOps).memory.maxSize) ∧
    diskInv (cmRun (CMState.init String 2 2 true) lruOps) ∧
    (∃ k0 e0, lookupKey k0 diskEx.entries = some e0 ∧
      (∀ p ∈ diskEx.entries, e0.lastAccessedAt ≤ p.2.lastAccessedAt) ∧
      (diskEvictLru diskEx).entries = dropKey k0 diskEx.entries) ∧
    ((∀ p ∈ memEx.cache,
        (("a", ⟨"x", 0, none, 1, 0⟩) : String × CEntry String).2.lastAccessedAt ≤
          p.2.lastAccessedAt) ∧
      memSet memEx "c" "z" none 5 =
        some (evictInsertMem memEx "c" "z" none 5
          [("b", ⟨"y", 0, none, 2, 0⟩)])) := by
  have hmem0 : (CMState.init String 2 2 true).memory.cache.length ≤
      (CMState.init String 2 2 true).memory.maxSize := by decide
  have hdisk0 : diskInv (CMState.init String 2 2 true) := by
    norm_num [diskInv, CMState.init, DiskCache.init]
  have hne : diskEx.entries ≠ [] := by decide
  have hnd : (diskEx.entries.map Prod.fst).Nodup := by decide
  have hcache : memEx.cache = ("a", ⟨"x", 0, none, 1, 0⟩) ::
      [("b", ⟨"y", 0, none, 2, 0⟩)] := rfl
  have hfull : memEx.maxSize ≤ memEx.cache.length := by decide
  have hnew : hasKey "c" memEx.cache = false := by decide
  have hord : memAccessOrdered memEx := by
    norm_num [memAccessOrdered, memEx, List.pairwise_cons]
  refine ⟨⟨hmem0, hdisk0, hne, hnd, hcache, hfull, hnew, hord⟩, ?_, ?_, ?_, ?_⟩
  · exact C9_lru_bounds_and_eviction.1 (CMState.init String 2 2 true) lruOps hmem0
  · exact C9_lru_bounds_and_eviction.2.1 (CMState.init String 2 2 true) lruOps hdisk0
  · exact C9_lru_bounds_and_eviction.2.2.1 diskEx hne hnd
  · exact C9_lru_bounds_and_eviction.2.2.2 memEx "c" "z" none 5 _ _
      hcache hfull hnew hord

end MCPRouter
